import Mathlib

/-!
# provablyfair-dice

A shallow embedding of `dice.go` (package `dice`) and the properties of its
specification.

* Byte slices are lists of `UInt8`. `Slice` is a slice taken as the bytes it holds when a
  call starts (`Slice.nil` or `Slice.mk bytes`), and the definitions over it give what each
  call returns. `Mem.Header` is a slice as Go holds it, a pointer into a backing array with
  a length and a capacity, and the definitions of `Mem` follow the same source lines over an
  explicit memory: they also give what `append` writes behind `ClientSeed`.
* `uint64` values are natural numbers, reduced modulo `2 ^ 64` where the code can wrap.
* `float64` values are modelled exactly (`Float64`), with round-to-nearest-even.
* The hash functions of Go's standard library are a parameter (`Hashes`); `goStd`
  is their real instance (FIPS 180-4 SHA-256 / SHA-512, RFC 2104 HMAC).
* The random source is an explicit state (`RandSource`) threaded through `NewGame`.
* A method with a pointer receiver takes the game and returns the game it leaves.
  `RollLock` only orders concurrent callers and has no field in the sequential model.
-/

namespace Dice

/-! ## Bytes -/

/-- The bytes of an ASCII string literal, as the conversion to a byte slice gives them. -/
def asciiBytes (s : String) : List UInt8 :=
  s.toList.map fun c => UInt8.ofNat c.toNat

/-- The number a big-endian byte string denotes. -/
def beNat (bs : List UInt8) : Nat :=
  bs.foldl (fun acc b => acc * 256 + b.toNat) 0

/-- The `n` low-order bytes of `x`, most significant first. -/
def beBytes : Nat → Nat → List UInt8
  | 0, _ => []
  | n + 1, x => UInt8.ofNat (x / 256 ^ n) :: beBytes n x

/-- The first `n` big-endian words of `size` bytes each in `bs`. -/
def beWords (size : Nat) : Nat → List UInt8 → List Nat
  | 0, _ => []
  | n + 1, bs => beNat (bs.take size) :: beWords size n (bs.drop size)

/-- A hash value of exactly `n` bytes. -/
abbrev Digest (n : Nat) : Type :=
  { bs : List UInt8 // bs.length = n }

/-! ## SHA-512 (FIPS 180-4), as in `crypto/sha512` -/

namespace SHA512

/-- The eighty round constants. -/
def K : List Nat :=
  [0x428a2f98d728ae22, 0x7137449123ef65cd, 0xb5c0fbcfec4d3b2f, 0xe9b5dba58189dbbc,
   0x3956c25bf348b538, 0x59f111f1b605d019, 0x923f82a4af194f9b, 0xab1c5ed5da6d8118,
   0xd807aa98a3030242, 0x12835b0145706fbe, 0x243185be4ee4b28c, 0x550c7dc3d5ffb4e2,
   0x72be5d74f27b896f, 0x80deb1fe3b1696b1, 0x9bdc06a725c71235, 0xc19bf174cf692694,
   0xe49b69c19ef14ad2, 0xefbe4786384f25e3, 0x0fc19dc68b8cd5b5, 0x240ca1cc77ac9c65,
   0x2de92c6f592b0275, 0x4a7484aa6ea6e483, 0x5cb0a9dcbd41fbd4, 0x76f988da831153b5,
   0x983e5152ee66dfab, 0xa831c66d2db43210, 0xb00327c898fb213f, 0xbf597fc7beef0ee4,
   0xc6e00bf33da88fc2, 0xd5a79147930aa725, 0x06ca6351e003826f, 0x142929670a0e6e70,
   0x27b70a8546d22ffc, 0x2e1b21385c26c926, 0x4d2c6dfc5ac42aed, 0x53380d139d95b3df,
   0x650a73548baf63de, 0x766a0abb3c77b2a8, 0x81c2c92e47edaee6, 0x92722c851482353b,
   0xa2bfe8a14cf10364, 0xa81a664bbc423001, 0xc24b8b70d0f89791, 0xc76c51a30654be30,
   0xd192e819d6ef5218, 0xd69906245565a910, 0xf40e35855771202a, 0x106aa07032bbd1b8,
   0x19a4c116b8d2d0c8, 0x1e376c085141ab53, 0x2748774cdf8eeb99, 0x34b0bcb5e19b48a8,
   0x391c0cb3c5c95a63, 0x4ed8aa4ae3418acb, 0x5b9cca4f7763e373, 0x682e6ff3d6b2b8a3,
   0x748f82ee5defb2fc, 0x78a5636f43172f60, 0x84c87814a1f0ab72, 0x8cc702081a6439ec,
   0x90befffa23631e28, 0xa4506cebde82bde9, 0xbef9a3f7b2c67915, 0xc67178f2e372532b,
   0xca273eceea26619c, 0xd186b8c721c0c207, 0xeada7dd6cde0eb1e, 0xf57d4f7fee6ed178,
   0x06f067aa72176fba, 0x0a637dc5a2c898a6, 0x113f9804bef90dae, 0x1b710b35131c471b,
   0x28db77f523047d84, 0x32caab7b40c72493, 0x3c9ebe0a15c9bebc, 0x431d67c49c100d4c,
   0x4cc5d4becb3e42b6, 0x597f299cfc657e2a, 0x5fcb6fab3ad6faec, 0x6c44198c4a475817]

/-- The eight working variables, also the chaining value. -/
structure State where
  a : Nat
  b : Nat
  c : Nat
  d : Nat
  e : Nat
  f : Nat
  g : Nat
  h : Nat

/-- The initial hash value. -/
def init : State :=
  ⟨0x6a09e667f3bcc908, 0xbb67ae8584caa73b, 0x3c6ef372fe94f82b, 0xa54ff53a5f1d36f1,
   0x510e527fade682d1, 0x9b05688c2b3e6c1f, 0x1f83d9abfb41bd6b, 0x5be0cd19137e2179⟩

/-- Rotation of a 64-bit word to the right. -/
def rotr (x n : Nat) : Nat :=
  (x >>> n ||| x <<< (64 - n)) % 2 ^ 64

/-- Upper-case sigma 0. -/
def bsig0 (x : Nat) : Nat :=
  rotr x 28 ^^^ rotr x 34 ^^^ rotr x 39

/-- Upper-case sigma 1. -/
def bsig1 (x : Nat) : Nat :=
  rotr x 14 ^^^ rotr x 18 ^^^ rotr x 41

/-- Lower-case sigma 0. -/
def ssig0 (x : Nat) : Nat :=
  rotr x 1 ^^^ rotr x 8 ^^^ x >>> 7

/-- Lower-case sigma 1. -/
def ssig1 (x : Nat) : Nat :=
  rotr x 19 ^^^ rotr x 61 ^^^ x >>> 6

/-- The choice function. -/
def ch (e f g : Nat) : Nat :=
  (e &&& f) ^^^ ((e ^^^ (2 ^ 64 - 1)) &&& g)

/-- The majority function. -/
def maj (a b c : Nat) : Nat :=
  (a &&& b) ^^^ (a &&& c) ^^^ (b &&& c)

/-- One round: the working variables and the sixteen schedule words `W[t], ..., W[t+15]`
become those of round `t + 1`. -/
def step (s : State × List Nat) (k : Nat) : State × List Nat :=
  let v := s.1
  let w := s.2
  let w0 := w.getD 0 0
  let t1 := (v.h + bsig1 v.e + ch v.e v.f v.g + k + w0) % 2 ^ 64
  let t2 := (bsig0 v.a + maj v.a v.b v.c) % 2 ^ 64
  let wn := (ssig1 (w.getD 14 0) + w.getD 9 0 + ssig0 (w.getD 1 0) + w0) % 2 ^ 64
  (⟨(t1 + t2) % 2 ^ 64, v.a, v.b, v.c, (v.d + t1) % 2 ^ 64, v.e, v.f, v.g⟩, w.tail ++ [wn])

/-- The compression function on one 128-byte block. -/
def compress (h : State) (block : List UInt8) : State :=
  let v := (K.foldl step (h, beWords 8 16 block)).1
  ⟨(h.a + v.a) % 2 ^ 64, (h.b + v.b) % 2 ^ 64, (h.c + v.c) % 2 ^ 64, (h.d + v.d) % 2 ^ 64,
   (h.e + v.e) % 2 ^ 64, (h.f + v.f) % 2 ^ 64, (h.g + v.g) % 2 ^ 64, (h.h + v.h) % 2 ^ 64⟩

/-- The chaining value after the first `n` blocks of `bs`. -/
def blocks : Nat → State → List UInt8 → State
  | 0, h, _ => h
  | n + 1, h, bs => blocks n (compress h (bs.take 128)) (bs.drop 128)

/-- The padded message: a `0x80` byte, zero bytes, and the bit length on 16 bytes. -/
def pad (msg : List UInt8) : List UInt8 :=
  msg ++ 0x80 :: List.replicate ((239 - msg.length % 128) % 128) 0 ++ beBytes 16 (8 * msg.length)

/-- The SHA-512 digest of `msg`. -/
def sum (msg : List UInt8) : Digest 64 :=
  let s := blocks ((pad msg).length / 128) init (pad msg)
  ⟨[s.a, s.b, s.c, s.d, s.e, s.f, s.g, s.h].flatMap (beBytes 8), by
    have hlen : ∀ n x, (beBytes n x).length = n := fun n x => by
      induction n with
      | zero => rfl
      | succ n ih => simp [beBytes, ih]
    simp [hlen]⟩

end SHA512

/-! ## SHA-256 (FIPS 180-4), as in `crypto/sha256` -/

namespace SHA256

/-- The sixty-four round constants. -/
def K : List Nat :=
  [0x428a2f98, 0x71374491, 0xb5c0fbcf, 0xe9b5dba5, 0x3956c25b, 0x59f111f1, 0x923f82a4, 0xab1c5ed5,
   0xd807aa98, 0x12835b01, 0x243185be, 0x550c7dc3, 0x72be5d74, 0x80deb1fe, 0x9bdc06a7, 0xc19bf174,
   0xe49b69c1, 0xefbe4786, 0x0fc19dc6, 0x240ca1cc, 0x2de92c6f, 0x4a7484aa, 0x5cb0a9dc, 0x76f988da,
   0x983e5152, 0xa831c66d, 0xb00327c8, 0xbf597fc7, 0xc6e00bf3, 0xd5a79147, 0x06ca6351, 0x14292967,
   0x27b70a85, 0x2e1b2138, 0x4d2c6dfc, 0x53380d13, 0x650a7354, 0x766a0abb, 0x81c2c92e, 0x92722c85,
   0xa2bfe8a1, 0xa81a664b, 0xc24b8b70, 0xc76c51a3, 0xd192e819, 0xd6990624, 0xf40e3585, 0x106aa070,
   0x19a4c116, 0x1e376c08, 0x2748774c, 0x34b0bcb5, 0x391c0cb3, 0x4ed8aa4a, 0x5b9cca4f, 0x682e6ff3,
   0x748f82ee, 0x78a5636f, 0x84c87814, 0x8cc70208, 0x90befffa, 0xa4506ceb, 0xbef9a3f7, 0xc67178f2]

/-- The initial hash value. -/
def init : SHA512.State :=
  ⟨0x6a09e667, 0xbb67ae85, 0x3c6ef372, 0xa54ff53a, 0x510e527f, 0x9b05688c, 0x1f83d9ab, 0x5be0cd19⟩

/-- Rotation of a 32-bit word to the right. -/
def rotr (x n : Nat) : Nat :=
  (x >>> n ||| x <<< (32 - n)) % 2 ^ 32

/-- Upper-case sigma 0. -/
def bsig0 (x : Nat) : Nat :=
  rotr x 2 ^^^ rotr x 13 ^^^ rotr x 22

/-- Upper-case sigma 1. -/
def bsig1 (x : Nat) : Nat :=
  rotr x 6 ^^^ rotr x 11 ^^^ rotr x 25

/-- Lower-case sigma 0. -/
def ssig0 (x : Nat) : Nat :=
  rotr x 7 ^^^ rotr x 18 ^^^ x >>> 3

/-- Lower-case sigma 1. -/
def ssig1 (x : Nat) : Nat :=
  rotr x 17 ^^^ rotr x 19 ^^^ x >>> 10

/-- The choice function. -/
def ch (e f g : Nat) : Nat :=
  (e &&& f) ^^^ ((e ^^^ (2 ^ 32 - 1)) &&& g)

/-- One round: the working variables and the sixteen schedule words `W[t], ..., W[t+15]`
become those of round `t + 1`. -/
def step (s : SHA512.State × List Nat) (k : Nat) : SHA512.State × List Nat :=
  let v := s.1
  let w := s.2
  let w0 := w.getD 0 0
  let t1 := (v.h + bsig1 v.e + ch v.e v.f v.g + k + w0) % 2 ^ 32
  let t2 := (bsig0 v.a + SHA512.maj v.a v.b v.c) % 2 ^ 32
  let wn := (ssig1 (w.getD 14 0) + w.getD 9 0 + ssig0 (w.getD 1 0) + w0) % 2 ^ 32
  (⟨(t1 + t2) % 2 ^ 32, v.a, v.b, v.c, (v.d + t1) % 2 ^ 32, v.e, v.f, v.g⟩, w.tail ++ [wn])

/-- The compression function on one 64-byte block. -/
def compress (h : SHA512.State) (block : List UInt8) : SHA512.State :=
  let v := (K.foldl step (h, beWords 4 16 block)).1
  ⟨(h.a + v.a) % 2 ^ 32, (h.b + v.b) % 2 ^ 32, (h.c + v.c) % 2 ^ 32, (h.d + v.d) % 2 ^ 32,
   (h.e + v.e) % 2 ^ 32, (h.f + v.f) % 2 ^ 32, (h.g + v.g) % 2 ^ 32, (h.h + v.h) % 2 ^ 32⟩

/-- The chaining value after the first `n` blocks of `bs`. -/
def blocks : Nat → SHA512.State → List UInt8 → SHA512.State
  | 0, h, _ => h
  | n + 1, h, bs => blocks n (compress h (bs.take 64)) (bs.drop 64)

/-- The padded message: a `0x80` byte, zero bytes, and the bit length on 8 bytes. -/
def pad (msg : List UInt8) : List UInt8 :=
  msg ++ 0x80 :: List.replicate ((119 - msg.length % 64) % 64) 0 ++ beBytes 8 (8 * msg.length)

/-- The SHA-256 digest of `msg` (`sha256.Sum256`). -/
def sum (msg : List UInt8) : Digest 32 :=
  let s := blocks ((pad msg).length / 64) init (pad msg)
  ⟨[s.a, s.b, s.c, s.d, s.e, s.f, s.g, s.h].flatMap (beBytes 4), by
    have hlen : ∀ n x, (beBytes n x).length = n := fun n x => by
      induction n with
      | zero => rfl
      | succ n ih => simp [beBytes, ih]
    simp [hlen]⟩

end SHA256

/-- The HMAC (RFC 2104) of `msg` under `key` with SHA-512, whose block size is 128 bytes:
what `hmac.New(sha512.New, key)`, `Write(msg)` and `Sum(nil)` compute. -/
def hmacSHA512 (key msg : List UInt8) : Digest 64 :=
  let k := if 128 < key.length then (SHA512.sum key).val else key
  let k := k ++ List.replicate (128 - k.length) 0
  SHA512.sum (k.map (fun b => b ^^^ 0x5c) ++ (SHA512.sum (k.map (fun b => b ^^^ 0x36) ++ msg)).val)

/-- The hash functions the package takes from Go's standard library. -/
structure Hashes where
  /-- The tag of `hmac.New(sha512.New, key)` over a message: always 64 bytes. -/
  hmacSHA512 : List UInt8 → List UInt8 → Digest 64
  /-- The digest of `sha256.Sum256`: always 32 bytes. -/
  sha256 : List UInt8 → Digest 32

/-- The hash functions of Go's standard library. -/
def goStd : Hashes :=
  ⟨hmacSHA512, SHA256.sum⟩

/-! ## `encoding/hex` and `strconv` -/

/-- The digit table of `encoding/hex`, the bytes of "0123456789abcdef". -/
def hextable : List UInt8 :=
  [48, 49, 50, 51, 52, 53, 54, 55, 56, 57, 97, 98, 99, 100, 101, 102]

/-- The bytes `hex.Encode` writes for `src`: for each byte `v`, `hextable[v>>4]` then
`hextable[v&0x0f]`. -/
def hexEncode (src : List UInt8) : List UInt8 :=
  src.flatMap fun v => [hextable.getD (v.toNat / 16) 0, hextable.getD (v.toNat % 16) 0]

/-- The buffer `dst` after `hex.Encode(dst, src)`: the encoding of `src` overwrites its
first `2 * len(src)` bytes. -/
def Encode (dst src : List UInt8) : List UInt8 :=
  hexEncode src ++ dst.drop (2 * src.length)

/-- The two causes of a `strconv.NumError`. -/
inductive NumErr where
  | ErrSyntax
  | ErrRange
  deriving DecidableEq, Repr

/-- The error values that can reach a caller of the package. -/
inductive Error where
  /-- The package variable `ErrClientSeedBlank`. -/
  | ErrClientSeedBlank
  /-- The package variable `ErrInvalidNonce`. -/
  | ErrInvalidNonce
  /-- A `*strconv.NumError` of `ParseUint` on the input `num`. -/
  | NumError (num : List UInt8) (err : NumErr)
  /-- An error of `crypto/rand`. -/
  | RandError (code : Nat)
  deriving DecidableEq, Repr

/-- The value `strconv.ParseUint` gives a byte before it checks it against the base:
`c - '0'` for a decimal digit, `lower(c) - 'a' + 10` for a letter, with `lower(c) = c | 0x20`. -/
def digitVal (c : UInt8) : Option Nat :=
  if 48 ≤ c.toNat ∧ c.toNat ≤ 57 then some (c.toNat - 48)
  else if 97 ≤ (c ||| 0x20).toNat ∧ (c ||| 0x20).toNat ≤ 122 then
    some ((c ||| 0x20).toNat - 97 + 10)
  else none

/-- The digit loop of `strconv.ParseUint(s0, 16, 0)` on a 64-bit platform: `n` is the value
read so far, the cutoff is `maxUint64/16 + 1 = 2 ^ 60` and `maxVal` is `2 ^ 64 - 1`. -/
def ParseUint.loop (s0 : List UInt8) : List UInt8 → Nat → Nat × Option Error
  | [], n => (n, none)
  | c :: cs, n =>
    match digitVal c with
    | none => (0, some (.NumError s0 .ErrSyntax))
    | some d =>
      if 16 ≤ d then (0, some (.NumError s0 .ErrSyntax))
      else if 2 ^ 60 ≤ n then (2 ^ 64 - 1, some (.NumError s0 .ErrRange))
      else
        let n := n * 16 % 2 ^ 64
        let n1 := (n + d) % 2 ^ 64
        if n1 < n ∨ 2 ^ 64 - 1 < n1 then (2 ^ 64 - 1, some (.NumError s0 .ErrRange))
        else ParseUint.loop s0 cs n1

/-- The call `strconv.ParseUint(s, 16, 0)`. -/
def ParseUint (s : List UInt8) : Nat × Option Error :=
  if s = [] then (0, some (.NumError s .ErrSyntax)) else ParseUint.loop s s 0

/-- The digit loop of `strconv.FormatUint(u, 10)`: while `u >= 10` the digit `u % 10` goes
in front of `a` and `u` becomes `u / 10`; the last digit is `u`. The first argument bounds
the number of turns; `FormatUint` passes `u` itself, which is more than the loop takes. -/
def FormatUint.loop : Nat → Nat → List UInt8 → List UInt8
  | 0, u, a => UInt8.ofNat (48 + u) :: a
  | turns + 1, u, a =>
    if 10 ≤ u then FormatUint.loop turns (u / 10) (UInt8.ofNat (48 + u % 10) :: a)
    else UInt8.ofNat (48 + u) :: a

/-- The call `strconv.FormatUint(u, 10)`, as bytes. -/
def FormatUint (u : Nat) : List UInt8 :=
  FormatUint.loop u u []

/-! ## `float64` -/

/-- An IEEE-754 binary64 value: `finite neg m e` is the number `(-1)^neg * m * 2^e`. The
operations below return finite values with `m < 2 ^ 53`, `-1074 ≤ e ≤ 971` and
`2 ^ 52 ≤ m` unless `e = -1074`. -/
inductive Float64 where
  | nan
  | inf (neg : Bool)
  | finite (neg : Bool) (m : Nat) (e : Int)
  deriving DecidableEq, Repr

namespace Float64

/-- The position of the leading bit of `n`, by at most `turns` halvings. -/
def log2Loop : Nat → Nat → Nat
  | 0, _ => 0
  | turns + 1, n => if 2 ≤ n then log2Loop turns (n / 2) + 1 else 0

/-- The position of the leading bit of `n`: `2 ^ log2 n ≤ n < 2 ^ (log2 n + 1)` for `0 < n`. -/
def log2 (n : Nat) : Nat :=
  log2Loop n n

/-- The exponent of the leading bit of `n / d`: `2 ^ e ≤ n / d < 2 ^ (e + 1)`. The difference
of the two leading bit positions is this exponent or one more. -/
def exponent (n d : Nat) : Int :=
  let e0 : Int := (log2 n : Int) - (log2 d : Int)
  if n * 2 ^ (-e0).toNat < d * 2 ^ e0.toNat then e0 - 1 else e0

/-- The multiple `m * 2 ^ q` of `2 ^ q` nearest to `n / d`, ties to the even `m`: the `m`. -/
def significand (n d : Nat) (q : Int) : Nat :=
  let num := n * 2 ^ (-q).toNat
  let den := d * 2 ^ q.toNat
  let m := num / den
  let r := num % den
  if den < 2 * r ∨ (2 * r = den ∧ m % 2 = 1) then m + 1 else m

/-- The binary64 value nearest to `n / d`, ties to the even significand, with sign `neg`:
the rounding of every arithmetic operation and conversion. The last place of the result
has exponent `q`, 52 below the leading bit and at least that of the subnormal numbers. -/
def round (neg : Bool) (n d : Nat) : Float64 :=
  if n = 0 ∨ d = 0 then finite neg 0 (-1074)
  else
    let q : Int := max (exponent n d - 52) (-1074)
    let m := significand n d q
    let q := if m = 2 ^ 53 then q + 1 else q
    let m := if m = 2 ^ 53 then 2 ^ 52 else m
    if 971 < q then inf neg else finite neg m q

/-- Positive zero, the value of the constant `0`. -/
def zero : Float64 :=
  finite false 0 (-1074)

/-- The value a non-negative constant `n / d` takes as a `float64`, such as `100` (`const 100 1`)
or `79.69` (`const 7969 100`). -/
def const (n d : Nat) : Float64 :=
  round false n d

/-- The conversion `float64(n)` of an unsigned integer. -/
def ofUint64 (n : Nat) : Float64 :=
  round false n 1

/-- The quotient `x / y`. -/
def div : Float64 → Float64 → Float64
  | nan, _ => nan
  | _, nan => nan
  | inf _, inf _ => nan
  | inf s, finite t _ _ => inf (xor s t)
  | finite s _ _, inf t => finite (xor s t) 0 (-1074)
  | finite s m e, finite t m' e' =>
    if m' = 0 then (if m = 0 then nan else inf (xor s t))
    else round (xor s t) (m * 2 ^ (e - e').toNat) (m' * 2 ^ (e' - e).toNat)

/-- The product `x * y`. -/
def mul : Float64 → Float64 → Float64
  | nan, _ => nan
  | _, nan => nan
  | inf s, inf t => inf (xor s t)
  | inf s, finite t m _ => if m = 0 then nan else inf (xor s t)
  | finite s m _, inf t => if m = 0 then nan else inf (xor s t)
  | finite s m e, finite t m' e' =>
    round (xor s t) (m * m' * 2 ^ (e + e').toNat) (2 ^ (-(e + e')).toNat)

/-- The integer `(-1)^neg * m * 2^(e - c)`, for an exponent `c ≤ e`. -/
def scaled (neg : Bool) (m : Nat) (e c : Int) : Int :=
  if neg then -((m * 2 ^ (e - c).toNat : Nat) : Int) else ((m * 2 ^ (e - c).toNat : Nat) : Int)

/-- The comparison `x == y`: false when either side is NaN, true between the two zeros. -/
def eq : Float64 → Float64 → Bool
  | finite s m e, finite t m' e' =>
    decide (scaled s m e (min e e') = scaled t m' e' (min e e'))
  | inf s, inf t => s == t
  | _, _ => false

/-- The comparison `x < y`. -/
def lt : Float64 → Float64 → Bool
  | finite s m e, finite t m' e' =>
    decide (scaled s m e (min e e') < scaled t m' e' (min e e'))
  | finite _ _ _, inf t => !t
  | inf s, finite _ _ _ => s
  | inf s, inf t => s && !t
  | _, _ => false

/-- The comparison `x <= y`. -/
def le : Float64 → Float64 → Bool
  | finite s m e, finite t m' e' =>
    decide (scaled s m e (min e e') ≤ scaled t m' e' (min e e'))
  | finite _ _ _, inf t => !t
  | inf s, finite _ _ _ => s
  | inf s, inf t => s || !t
  | _, _ => false

/-- The rational number a finite value denotes; 0 for the others. -/
def toRat : Float64 → ℚ
  | finite neg m e => (if neg then -1 else 1) * (m : ℚ) * (2 : ℚ) ^ e
  | _ => 0

/-- Whether the value is a whole number. -/
def isInt : Float64 → Bool
  | finite _ m e => decide (m % 2 ^ (-e).toNat = 0)
  | _ => false

end Float64

/-! ## The package `dice` -/

/-- A value of type `[]byte` taken as what it holds: the nil slice, or a slice holding
`bytes`. Where the slice lies in memory is the matter of `Mem.Header`. -/
inductive Slice where
  | nil
  | mk (bytes : List UInt8)
  deriving DecidableEq, Repr

/-- The bytes of a slice; the nil slice has none. -/
def Slice.bytes : Slice → List UInt8
  | .nil => []
  | .mk bs => bs

/-- The length `len(s)`. -/
def Slice.len (s : Slice) : Nat :=
  s.bytes.length

/-- The test `s == nil`. -/
def Slice.isNil : Slice → Bool
  | .nil => true
  | .mk _ => false

/-- The struct `Game` (`dice.go`, lines 22-30), without its mutex, with each slice taken as
the bytes it holds. -/
structure Game where
  ClientSeed : Slice
  ServerSeed : Slice
  BlindedServerSeed : Slice
  Nonce : Nat
  deriving DecidableEq, Repr

/-- The random source `crypto/rand.Reader` as the package can observe it: the bytes it has
yet to deliver, which of its reads fail and with what error, and how much was taken so far. -/
structure RandSource where
  /-- The bytes the source delivers, in order. -/
  stream : Nat → UInt8
  /-- The error of the read number `i` (from 0), when that read fails. -/
  failure : Nat → Option Nat
  /-- The number of bytes delivered so far. -/
  pos : Nat
  /-- The number of reads made so far. -/
  reads : Nat

/-- The call `rand.Read(b)` on a fresh buffer of `n` zero bytes: the buffer and error after
the call, and the source after it. -/
def RandSource.Read (n : Nat) (rng : RandSource) : (List UInt8 × Option Error) × RandSource :=
  match rng.failure rng.reads with
  | some code =>
    ((List.replicate n 0, some (.RandError code)), { rng with reads := rng.reads + 1 })
  | none =>
    (((List.range n).map fun i => rng.stream (rng.pos + i), none),
      { rng with pos := rng.pos + n, reads := rng.reads + 1 })

/-- The function `newServerSeed` (`dice.go`, lines 140-144). -/
def newServerSeed (byteCount : Nat) (rng : RandSource) : (Slice × Option Error) × RandSource :=
  match rng.Read byteCount with
  | ((seed, err), rng) => ((.mk seed, err), rng)

/-- The function `NewGame` (`dice.go`, lines 34-58): the returned `*Game` (`none` for a nil
pointer) and error, and the random source after the call. -/
def NewGame (H : Hashes) (clientSeed serverSeed : Slice) (rng : RandSource) :
    (Option Game × Option Error) × RandSource :=
  if clientSeed.isNil || clientSeed.len == 0 then ((none, some .ErrClientSeedBlank), rng)
  else if serverSeed.isNil || serverSeed.len == 0 then
    match newServerSeed 32 rng with
    | ((_, some err), rng) => ((none, some err), rng)
    | ((serverSeed, none), rng) =>
      ((some ⟨clientSeed, serverSeed, .mk (H.sha256 serverSeed.bytes).val, 0⟩, none), rng)
  else ((some ⟨clientSeed, serverSeed, .mk (H.sha256 serverSeed.bytes).val, 0⟩, none), rng)

/-- The method `CalculateHMAC` (`dice.go`, lines 118-125): the bytes it returns, from the
bytes the two seeds hold when the call starts. What the two calls of `append` write to
memory is in `Mem.CalculateHMAC`. -/
def CalculateHMAC (H : Hashes) (g : Game) : List UInt8 :=
  let h := H.hmacSHA512 g.ServerSeed.bytes (g.ClientSeed.bytes ++ [45] ++ FormatUint g.Nonce)
  let ourHMAC := List.replicate 128 0
  Encode ourHMAC h.val

/-- The `for` loop of `Calculate` (`dice.go`, lines 89-106) from the test of its condition
on: `todo` counts the values of `i` the condition `i < len(ourHMAC)-5` still admits. The
result is `.error err` when the loop returns `0, err` from the method, and `.ok randNum`
when the loop ends, by its condition or by one of the two `break`s. -/
def Calculate.scan (ourHMAC : List UInt8) : Nat → Nat → Nat → Except Error Nat
  | 0, _, randNum => .ok randNum
  | todo + 1, i, randNum =>
    let idx := i * 5
    if ourHMAC.length < idx + 5 then .ok randNum
    else
      match ParseUint ((ourHMAC.drop idx).take 5) with
      | (_, some err) => .error err
      | (randNum, none) =>
        if randNum ≤ 999999 then .ok randNum else Calculate.scan ourHMAC todo (i + 1) randNum

/-- The end of `Calculate` (`dice.go`, lines 108-114), on the `randNum` the loop leaves. -/
def Calculate.result (randNum : Nat) : Float64 × Option Error :=
  if 999999 < randNum then (Float64.zero, some .ErrInvalidNonce)
  else (Float64.div (Float64.ofUint64 (randNum % 10000)) (Float64.const 100 1), none)

/-- The method `Calculate` (`dice.go`, lines 82-115): what it returns, from the bytes the
two seeds hold when the call starts. It assigns to no field of the game; the memory it
leaves is in `Mem.Calculate`. -/
def Calculate (H : Hashes) (g : Game) : Float64 × Option Error :=
  let ourHMAC := CalculateHMAC H g
  match Calculate.scan ourHMAC (ourHMAC.length - 5) 0 0 with
  | .error err => (Float64.zero, some err)
  | .ok randNum => Calculate.result randNum

/-- The method `Roll` (`dice.go`, lines 62-77): what it returns and the fields it leaves,
from the bytes the two seeds hold when the call starts. The memory it leaves is in
`Mem.Roll`. -/
def Roll (H : Hashes) (g : Game) : (Float64 × Option Error) × Game :=
  match Calculate H g with
  | (roll, some err) => ((roll, some err), g)
  | (roll, none) => ((roll, none), { g with Nonce := (g.Nonce + 1) % 2 ^ 64 })

/-- How a call ends: it returns, or it panics on a nil pointer. -/
inductive Exec (α : Type) where
  | returns (a : α)
  | panics
  deriving DecidableEq, Repr

/-- The first two lines of `Verfiy` (`dice.go`, lines 129-130): the game it goes on to
compute with (`none` when `NewGame` gave a nil pointer, where `game.Nonce = nonce` panics),
and the random source after `NewGame`. -/
def Verfiy.game (H : Hashes) (clientSeed serverSeed : Slice) (nonce : Nat) (rng : RandSource) :
    Option Game × RandSource :=
  match NewGame H clientSeed serverSeed rng with
  | ((none, _), rng) => (none, rng)
  | ((some game, _), rng) => (some { game with Nonce := nonce }, rng)

/-- The function `Verfiy` (`dice.go`, lines 128-138), with the random source after it. -/
def Verfiy (H : Hashes) (clientSeed serverSeed : Slice) (nonce : Nat) (randNum : Float64)
    (rng : RandSource) : Exec (Bool × Option Error) × RandSource :=
  match Verfiy.game H clientSeed serverSeed nonce rng with
  | (none, rng) => (.panics, rng)
  | (some game, rng) =>
    match Calculate H game with
    | (_, some err) => (.returns (false, some err), rng)
    | (roll, none) => (.returns (Float64.eq roll randNum, none), rng)

/-- The results of `k` successive calls of `Roll`, in order, and the game they leave, the
seeds holding the same bytes at every call. -/
def Rolls (H : Hashes) : Nat → Game → List (Float64 × Option Error) × Game
  | 0, g => ([], g)
  | k + 1, g => ((Roll H g).1 :: (Rolls H k (Roll H g).2).1, (Rolls H k (Roll H g).2).2)

/-! ## Slices in memory

A Go slice is a pointer into a backing array together with a length and a capacity.
`NewGame` stores its two arguments as they are, without copying their bytes, and `append`
writes behind the length of its first argument wherever the capacity allows. The
definitions above take a slice as the bytes it holds when a call starts and give what the
call returns; the definitions of this section follow the same source lines over an
explicit memory and also give the memory each call leaves. -/

namespace Mem

/-- The memory: the bytes of the backing arrays allocated so far, one array behind the
other. An address is an index into this list. -/
abbrev Heap := List UInt8

/-- A value of type `[]byte` as Go holds it: the nil slice, or the address of the first
element, the length and the capacity. -/
inductive Header where
  | nil
  | mk (ptr len cap : Nat)
  deriving DecidableEq, Repr

/-- The length `len(s)`. -/
def Header.len : Header → Nat
  | .nil => 0
  | .mk _ len _ => len

/-- The capacity `cap(s)`. -/
def Header.cap : Header → Nat
  | .nil => 0
  | .mk _ _ cap => cap

/-- The test `s == nil`. -/
def Header.isNil : Header → Bool
  | .nil => true
  | .mk _ _ _ => false

/-- A slice lies in memory: its length is within its capacity and its capacity ends within
the memory allocated. The nil slice lies in every memory. -/
def Header.Valid (m : Heap) : Header → Prop
  | .nil => True
  | .mk ptr len cap => len ≤ cap ∧ ptr + cap ≤ m.length

instance Header.decValid (m : Heap) : (s : Header) → Decidable (s.Valid m)
  | .nil => isTrue trivial
  | .mk ptr len cap => inferInstanceAs (Decidable (len ≤ cap ∧ ptr + cap ≤ m.length))

/-- The slice `r` has no byte in the spare capacity of the slice `s`, the part of the array
of `s` between its length and its capacity, which is where `append(s, ...)` writes. -/
def Header.Clear (s r : Header) : Prop :=
  match s, r with
  | .mk ptr len cap, .mk q n _ => n = 0 ∨ q + n ≤ ptr + len ∨ ptr + cap ≤ q
  | _, _ => True

instance Header.decClear : (s r : Header) → Decidable (s.Clear r)
  | .nil, _ => isTrue trivial
  | .mk _ _ _, .nil => isTrue trivial
  | .mk ptr len cap, .mk q n _ =>
    inferInstanceAs (Decidable (n = 0 ∨ q + n ≤ ptr + len ∨ ptr + cap ≤ q))

/-- The subslice `s[i:j]`, for `i ≤ j ≤ cap(s)` as Go requires: it starts `i` elements
further on and keeps the capacity that is left from there. -/
def Header.slice (s : Header) (i j : Nat) : Header :=
  match s with
  | .nil => .nil
  | .mk ptr _ cap => .mk (ptr + i) (j - i) (cap - i)

/-- The bytes a slice holds in memory `m`. -/
def load (m : Heap) : Header → Slice
  | .nil => .nil
  | .mk ptr len _ => .mk ((m.drop ptr).take len)

/-- The memory after the bytes `bs` are written from address `p` on. -/
def store (m : Heap) (p : Nat) (bs : List UInt8) : Heap :=
  m.take p ++ bs ++ m.drop (p + bs.length)

/-- A new array that holds `bs`, placed behind the arrays allocated before: the memory with
it and the slice of the whole array. -/
def alloc (m : Heap) (bs : List UInt8) : Heap × Header :=
  (m ++ bs, .mk m.length bs.length bs.length)

/-- The builtin `append(s, elems...)`. While `len(s) + len(elems)` is within `cap(s)` the
elements are written into the array of `s`, behind its length, and the result is `s` with
the greater length. Otherwise a new array receives the bytes of `s` and the elements and
the array of `s` is left as it is. Go may give the new array spare capacity; here it has
none, which no caller of this package can tell apart, since `CalculateHMAC` keeps no slice
of an array allocated by `append`. -/
def append (m : Heap) (s : Header) (elems : List UInt8) : Heap × Header :=
  match s with
  | .nil => if elems.length = 0 then (m, .nil) else alloc m elems
  | .mk ptr len cap =>
    if len + elems.length ≤ cap then (store m (ptr + len) elems, .mk ptr (len + elems.length) cap)
    else alloc m ((m.drop ptr).take len ++ elems)

/-- The struct `Game` (`dice.go`, lines 22-30) as it lies in memory, without its mutex:
each of the three slice fields is a pointer, a length and a capacity. -/
structure Game where
  ClientSeed : Header
  ServerSeed : Header
  BlindedServerSeed : Header
  Nonce : Nat
  deriving DecidableEq, Repr

/-- The bytes the fields of a game hold in memory `m`. -/
def Game.view (m : Heap) (g : Game) : Dice.Game :=
  ⟨load m g.ClientSeed, load m g.ServerSeed, load m g.BlindedServerSeed, g.Nonce⟩

/-- The three slices of a game lie in memory, and neither `ServerSeed` nor
`BlindedServerSeed` has a byte in the spare capacity of `ClientSeed`. -/
def Game.Separate (m : Heap) (g : Game) : Prop :=
  g.ClientSeed.Valid m ∧ g.ServerSeed.Valid m ∧ g.BlindedServerSeed.Valid m ∧
    g.ClientSeed.Clear g.ServerSeed ∧ g.ClientSeed.Clear g.BlindedServerSeed

instance Game.decSeparate (m : Heap) (g : Game) : Decidable (g.Separate m) :=
  inferInstanceAs (Decidable (g.ClientSeed.Valid m ∧ g.ServerSeed.Valid m ∧
    g.BlindedServerSeed.Valid m ∧ g.ClientSeed.Clear g.ServerSeed ∧
    g.ClientSeed.Clear g.BlindedServerSeed))

/-- The function `newServerSeed` (`dice.go`, lines 140-144): `make` allocates the array
that `rand.Read` fills. -/
def newServerSeed (byteCount : Nat) (rng : RandSource) (m : Heap) :
    (Header × Option Error) × RandSource × Heap :=
  match rng.Read byteCount with
  | ((seed, err), rng) => (((alloc m seed).2, err), rng, (alloc m seed).1)

/-- The last lines of `NewGame` (`dice.go`, lines 49-57): the digest is a new array, the two
seeds are stored as the slices they are. -/
def NewGame.make (H : Hashes) (clientSeed serverSeed : Header) (m : Heap) : Game × Heap :=
  let blindedSeed := alloc m (H.sha256 (load m serverSeed).bytes).val
  (⟨clientSeed, serverSeed, blindedSeed.2, 0⟩, blindedSeed.1)

/-- The function `NewGame` (`dice.go`, lines 34-58): the returned `*Game` (`none` for a nil
pointer) and error, the random source and the memory after the call. -/
def NewGame (H : Hashes) (clientSeed serverSeed : Header) (rng : RandSource) (m : Heap) :
    (Option Game × Option Error) × RandSource × Heap :=
  if clientSeed.isNil || clientSeed.len == 0 then ((none, some .ErrClientSeedBlank), rng, m)
  else if serverSeed.isNil || serverSeed.len == 0 then
    match newServerSeed 32 rng m with
    | ((_, some err), rng, m) => ((none, some err), rng, m)
    | ((serverSeed, none), rng, m) =>
      ((some (NewGame.make H clientSeed serverSeed m).1, none), rng,
        (NewGame.make H clientSeed serverSeed m).2)
  else
    ((some (NewGame.make H clientSeed serverSeed m).1, none), rng,
      (NewGame.make H clientSeed serverSeed m).2)

/-- The message of `CalculateHMAC` (`dice.go`, line 120),
`append(append(g.ClientSeed, '-'), []byte(strconv.FormatUint(g.Nonce, 10))...)`: the memory
the two calls of `append` leave and the slice that holds the message. -/
def CalculateHMAC.message (g : Game) (m : Heap) : Heap × Header :=
  append (append m g.ClientSeed [45]).1 (append m g.ClientSeed [45]).2 (FormatUint g.Nonce)

/-- The method `CalculateHMAC` (`dice.go`, lines 118-125): the bytes of the new slice it
returns and the memory it leaves. `hmac.New` copies the key into its pads before the
message is built, so the key is `ServerSeed` as it is when the call starts. -/
def CalculateHMAC (H : Hashes) (g : Game) (m : Heap) : List UInt8 × Heap :=
  let key := (load m g.ServerSeed).bytes
  let msg := CalculateHMAC.message g m
  let h := H.hmacSHA512 key (load msg.1 msg.2).bytes
  let ourHMAC := List.replicate 128 0
  (Encode ourHMAC h.val, msg.1)

/-- The method `Calculate` (`dice.go`, lines 82-115): what it returns and the memory it
leaves. -/
def Calculate (H : Hashes) (g : Game) (m : Heap) : (Float64 × Option Error) × Heap :=
  let ourHMAC := (CalculateHMAC H g m).1
  match Dice.Calculate.scan ourHMAC (ourHMAC.length - 5) 0 0 with
  | .error err => ((Float64.zero, some err), (CalculateHMAC H g m).2)
  | .ok randNum => (Dice.Calculate.result randNum, (CalculateHMAC H g m).2)

/-- The method `Roll` (`dice.go`, lines 62-77): what it returns, the game and the memory it
leaves. -/
def Roll (H : Hashes) (g : Game) (m : Heap) : (Float64 × Option Error) × Game × Heap :=
  match Calculate H g m with
  | ((roll, some err), m) => ((roll, some err), g, m)
  | ((roll, none), m) => ((roll, none), { g with Nonce := (g.Nonce + 1) % 2 ^ 64 }, m)

/-- The results of `k` successive calls of `Roll`, in order, and the game and the memory
they leave. -/
def Rolls (H : Hashes) : Nat → Game → Heap → List (Float64 × Option Error) × Game × Heap
  | 0, g, m => ([], g, m)
  | k + 1, g, m =>
    ((Roll H g m).1 :: (Rolls H k (Roll H g m).2.1 (Roll H g m).2.2).1,
      (Rolls H k (Roll H g m).2.1 (Roll H g m).2.2).2)

/-- The function `Verfiy` (`dice.go`, lines 128-138), with the random source and the memory
after it. -/
def Verfiy (H : Hashes) (clientSeed serverSeed : Header) (nonce : Nat) (randNum : Float64)
    (rng : RandSource) (m : Heap) : Exec (Bool × Option Error) × RandSource × Heap :=
  match NewGame H clientSeed serverSeed rng m with
  | ((none, _), rng, m) => (.panics, rng, m)
  | ((some game, _), rng, m) =>
    match Calculate H { game with Nonce := nonce } m with
    | ((_, some err), m) => (.returns (false, some err), rng, m)
    | ((roll, none), m) => (.returns (Float64.eq roll randNum, none), rng, m)

end Mem

/-! ## The wording of the specification -/

namespace Spec

/-- The lowercase hexadecimal digit for a value below 16. -/
def hexDigit (d : Nat) : UInt8 :=
  if d < 10 then UInt8.ofNat (48 + d) else UInt8.ofNat (97 + (d - 10))

/-- The lowercase hexadecimal encoding, two characters per byte. -/
def hexString (bs : List UInt8) : List UInt8 :=
  bs.flatMap fun b => [hexDigit (b.toNat / 16), hexDigit (b.toNat % 16)]

/-- The value of one hexadecimal digit character. -/
def hexDigitValue (c : UInt8) : Nat :=
  if 48 ≤ c.toNat ∧ c.toNat ≤ 57 then c.toNat - 48
  else if 97 ≤ c.toNat ∧ c.toNat ≤ 102 then c.toNat - 87
  else if 65 ≤ c.toNat ∧ c.toNat ≤ 70 then c.toNat - 55
  else 0

/-- The base-16 integer a string of hexadecimal digits denotes. -/
def base16 (s : List UInt8) : Nat :=
  s.foldl (fun n c => 16 * n + hexDigitValue c) 0

/-- The 5-character window number `i`, at offset `5 * i`. -/
def window (hex : List UInt8) (i : Nat) : List UInt8 :=
  (hex.drop (5 * i)).take 5

/-- The values of the 25 windows at offsets 0, 5, ..., 120, in order. -/
def windowValues (hex : List UInt8) : List Nat :=
  (List.range 25).map fun i => base16 (window hex i)

/-- The selected value: that of the first window whose value is at most 999999. -/
def selectedValue (hex : List UInt8) : Option Nat :=
  (windowValues hex).find? fun v => decide (v ≤ 999999)

/-- The MAC message: the client seed, the separator `-`, the nonce in decimal. -/
def message (clientSeed : List UInt8) (nonce : Nat) : List UInt8 :=
  clientSeed ++ asciiBytes "-" ++ asciiBytes (toString nonce)

end Spec

/-! ## The fixtures of `dice_test.go` -/

/-- The variable `ExampleClientSeed`. -/
def ExampleClientSeed : Slice :=
  .mk (asciiBytes "ClientSeedForDiceSites.com")

/-- The variable `ExampleServerSeed`. -/
def ExampleServerSeed : Slice :=
  .mk (asciiBytes "293d5d2ddd365f54759283a8097ab2640cbe6f8864adc2b1b31e65c14c999f04")

/-- The game of `newExampleGame`, as `NewGame` returns it on the two example seeds. -/
def ExampleGame : Game :=
  ⟨ExampleClientSeed, ExampleServerSeed, .mk (goStd.sha256 ExampleServerSeed.bytes).val, 0⟩

/-- A random source that delivers zero bytes and never fails. -/
def zeroSource : RandSource :=
  ⟨fun _ => 0, fun _ => none, 0, 0⟩

/-- A random source that delivers bytes `0xff` and never fails. -/
def onesSource : RandSource :=
  ⟨fun _ => 255, fun _ => none, 0, 0⟩

/-- A random source whose reads all fail. -/
def brokenSource : RandSource :=
  ⟨fun _ => 0, fun _ => some 5, 0, 0⟩

/-- Hash functions whose MAC is sixty-four bytes `0xff`, so that every window reads `fffff`:
they exhibit the path on which `Calculate` fails, for which no seeds are known under `goStd`. -/
def stuckHashes : Hashes :=
  ⟨fun _ _ => ⟨List.replicate 64 255, by simp⟩, SHA256.sum⟩

/-- A memory with one array of twelve bytes, `seedKEY!tail`. -/
def sharedHeap : Mem.Heap :=
  asciiBytes "seedKEY!tail"

/-- The slice `buf` of that whole array, as `buf := make([]byte, 12)` gives it. -/
def sharedBuf : Mem.Header :=
  .mk 0 12 12

/-- The game that `NewGame(buf[0:4], buf[4:8])` returns: its client seed `seed` and its
server seed `KEY!` lie in the one array, and the digest lies behind that array. -/
def sharedGame : Mem.Game :=
  ⟨sharedBuf.slice 0 4, sharedBuf.slice 4 8, .mk 12 32 32, 0⟩

/-- The memory that `NewGame(buf[0:4], buf[4:8])` leaves: the array `seedKEY!tail` and the
array of the digest behind it. -/
def sharedStart : Mem.Heap :=
  (Mem.NewGame goStd (sharedBuf.slice 0 4) (sharedBuf.slice 4 8) zeroSource sharedHeap).2.2

/-! ## Hexadecimal strings and their parsing -/

theorem hextable_getD_mem : ∀ i < 16, hextable.getD i 0 ∈ hextable := by
  decide

theorem hextable_getD_eq_hexDigit : ∀ i < 16, hextable.getD i 0 = Spec.hexDigit i := by
  decide

theorem hexEncode_eq_hexString (src : List UInt8) : hexEncode src = Spec.hexString src := by
  have h16 : ∀ v : UInt8, v.toNat / 16 < 16 := fun v => by
    have := v.val.isLt
    simp only [UInt8.toNat, UInt8.size] at *
    omega
  have hmod : ∀ v : UInt8, v.toNat % 16 < 16 := fun v => Nat.mod_lt _ (by decide)
  unfold hexEncode Spec.hexString
  congr 1
  funext v
  rw [hextable_getD_eq_hexDigit _ (h16 v), hextable_getD_eq_hexDigit _ (hmod v)]

theorem hexEncode_length (src : List UInt8) : (hexEncode src).length = 2 * src.length := by
  induction src with
  | nil => rfl
  | cons v vs ih =>
    simp only [hexEncode, List.flatMap_cons, List.length_append, List.length_cons,
      List.length_nil] at ih ⊢
    omega

theorem hexEncode_mem {src : List UInt8} {c : UInt8} (h : c ∈ hexEncode src) :
    c ∈ hextable := by
  simp only [hexEncode, List.mem_flatMap, List.mem_cons, List.mem_singleton, List.mem_nil_iff,
    or_false] at h
  obtain ⟨v, _, hc⟩ := h
  have h16 : v.toNat / 16 < 16 := by
    have := v.val.isLt
    simp only [UInt8.toNat, UInt8.size] at *
    omega
  rcases hc with hc | hc
  · rw [hc]; exact hextable_getD_mem _ h16
  · rw [hc]; exact hextable_getD_mem _ (Nat.mod_lt _ (by decide))

theorem CalculateHMAC_eq (H : Hashes) (g : Game) :
    CalculateHMAC H g =
      hexEncode (H.hmacSHA512 g.ServerSeed.bytes
        (g.ClientSeed.bytes ++ [45] ++ FormatUint g.Nonce)).val := by
  simp [CalculateHMAC, Encode, (H.hmacSHA512 _ _).property]

theorem CalculateHMAC_length (H : Hashes) (g : Game) : (CalculateHMAC H g).length = 128 := by
  rw [CalculateHMAC_eq, hexEncode_length, (H.hmacSHA512 _ _).property]

theorem CalculateHMAC_mem (H : Hashes) (g : Game) {c : UInt8} (h : c ∈ CalculateHMAC H g) :
    c ∈ hextable := by
  rw [CalculateHMAC_eq] at h
  exact hexEncode_mem h

theorem digitVal_hextable :
    ∀ c ∈ hextable, digitVal c = some (Spec.hexDigitValue c) ∧ Spec.hexDigitValue c < 16 := by
  decide

theorem ParseUint_loop_hex (s0 : List UInt8) :
    ∀ (cs : List UInt8) (n j : Nat), (∀ c ∈ cs, c ∈ hextable) → cs.length + j = 16 →
      n < 16 ^ j →
      ParseUint.loop s0 cs n = (cs.foldl (fun n c => 16 * n + Spec.hexDigitValue c) n, none) := by
  intro cs
  induction cs with
  | nil => intro n j _ _ _; rfl
  | cons c cs ih =>
    intro n j hmem hlen hn
    obtain ⟨hd, hlt⟩ := digitVal_hextable c (hmem c (List.mem_cons_self _ _))
    have hj : j ≤ 15 := by simp only [List.length_cons] at hlen; omega
    have hn60 : n < 2 ^ 60 := by
      calc n < 16 ^ j := hn
        _ ≤ 16 ^ 15 := Nat.pow_le_pow_right (by decide) hj
        _ = 2 ^ 60 := by norm_num
    have h1 : n * 16 % 2 ^ 64 = n * 16 := Nat.mod_eq_of_lt (by omega)
    have h2 : (n * 16 + Spec.hexDigitValue c) % 2 ^ 64 = n * 16 + Spec.hexDigitValue c :=
      Nat.mod_eq_of_lt (by omega)
    have hnext : 16 * n + Spec.hexDigitValue c < 16 ^ (j + 1) := by
      rw [pow_succ]; omega
    rw [ParseUint.loop, hd]
    simp only [h1, h2]
    rw [if_neg (by omega), if_neg (by omega), if_neg (by omega)]
    rw [ih (n * 16 + Spec.hexDigitValue c) (j + 1)
      (fun x hx => hmem x (List.mem_cons_of_mem _ hx))
      (by simp only [List.length_cons] at hlen; omega) (by omega)]
    simp only [List.foldl_cons, Nat.mul_comm]

theorem ParseUint_hex (s : List UInt8) (hne : s ≠ []) (hlen : s.length ≤ 16)
    (hmem : ∀ c ∈ s, c ∈ hextable) : ParseUint s = (Spec.base16 s, none) := by
  rw [ParseUint, if_neg hne]
  exact ParseUint_loop_hex s s 0 (16 - s.length) hmem (by omega) (Nat.pos_pow_of_pos _ (by decide))

/-! ## The scan of `Calculate` -/

theorem window_hex {hex : List UInt8} (hlen : hex.length = 128)
    (hmem : ∀ c ∈ hex, c ∈ hextable) (i : Nat) (hi : i < 25) :
    ParseUint ((hex.drop (i * 5)).take 5) = (Spec.base16 (Spec.window hex i), none) := by
  have hw : (hex.drop (i * 5)).take 5 = Spec.window hex i := by
    rw [Spec.window, Nat.mul_comm]
  rw [hw]
  have hl : (Spec.window hex i).length = 5 := by
    simp only [Spec.window, List.length_take, List.length_drop, hlen]
    omega
  refine ParseUint_hex _ ?_ (by omega) ?_
  · intro h
    rw [h] at hl
    simp at hl
  · intro c hc
    exact hmem c (List.mem_of_mem_drop (List.mem_of_mem_take hc))

theorem scan_eq {hex : List UInt8} (hlen : hex.length = 128)
    (hmem : ∀ c ∈ hex, c ∈ hextable) :
    ∀ (k i todo randNum : Nat), i + k = 25 → k < todo →
      Calculate.scan hex todo i randNum =
        .ok ((((List.range' i k).map fun j => Spec.base16 (Spec.window hex j)).find?
            fun v => decide (v ≤ 999999)).getD
          (((List.range' i k).map fun j => Spec.base16 (Spec.window hex j)).getLastD randNum)) := by
  intro k
  induction k with
  | zero =>
    intro i todo randNum hik htodo
    obtain ⟨t, rfl⟩ : ∃ t, todo = t + 1 := ⟨todo - 1, by omega⟩
    have hi : i = 25 := by omega
    subst hi
    simp [Calculate.scan, hlen]
  | succ k ih =>
    intro i todo randNum hik htodo
    obtain ⟨t, rfl⟩ : ∃ t, todo = t + 1 := ⟨todo - 1, by omega⟩
    have hi : i < 25 := by omega
    rw [Calculate.scan]
    simp only [hlen]
    rw [if_neg (by omega), window_hex hlen hmem i hi]
    simp only [List.range'_succ, List.map_cons, List.find?_cons, List.getLastD_cons]
    by_cases hv : Spec.base16 (Spec.window hex i) ≤ 999999
    · simp [hv]
    · rw [if_neg hv, ih (i + 1) t _ (by omega) (by omega)]
      simp [hv]

theorem Calculate_eq (H : Hashes) (g : Game) :
    Calculate H g =
      match Spec.selectedValue (CalculateHMAC H g) with
      | some v => (Float64.div (Float64.ofUint64 (v % 10000)) (Float64.const 100 1), none)
      | none => (Float64.zero, some .ErrInvalidNonce) := by
  have hlen := CalculateHMAC_length H g
  have hmem : ∀ c ∈ CalculateHMAC H g, c ∈ hextable := fun c hc => CalculateHMAC_mem H g hc
  have hscan := scan_eq hlen hmem 25 0 123 0 (by omega) (by omega)
  rw [← List.range_eq_range'] at hscan
  simp only [Calculate, hlen, Nat.reduceSub, hscan, Spec.selectedValue, Spec.windowValues]
  cases hf : ((List.range 25).map fun i => Spec.base16 (Spec.window (CalculateHMAC H g) i)).find?
      fun v => decide (v ≤ 999999) with
  | some v =>
    have hv := List.find?_some hf
    simp only [decide_eq_true_eq] at hv
    simp only [Option.getD_some, Calculate.result]
    rw [if_neg (by omega)]
  | none =>
    rw [List.find?_eq_none] at hf
    simp only [Option.getD_none, Calculate.result]
    have hne : ((List.range 25).map fun i =>
        Spec.base16 (Spec.window (CalculateHMAC H g) i)) ≠ [] := by simp
    have hlast := hf _ (List.getLast_mem hne)
    simp only [decide_eq_true_eq] at hlast
    rw [List.getLastD_eq_getLast?, List.getLast?_eq_getLast _ hne, Option.getD_some]
    rw [if_pos (by omega)]

/-! ## The decimal representation of the nonce -/

theorem digitChar_byte : ∀ d < 10, UInt8.ofNat (Nat.digitChar d).toNat = UInt8.ofNat (48 + d) := by
  decide

theorem toDigitsCore_map :
    ∀ (fuel' fuel u : Nat) (cs : List Char), u < fuel' → u ≤ fuel →
      (Nat.toDigitsCore 10 fuel' u cs).map (fun c => UInt8.ofNat c.toNat) =
        FormatUint.loop fuel u (cs.map fun c => UInt8.ofNat c.toNat) := by
  intro fuel'
  induction fuel' with
  | zero => intro fuel u cs h; omega
  | succ fuel' ih =>
    intro fuel u cs hu hfuel
    rw [Nat.toDigitsCore]
    by_cases h10 : 10 ≤ u
    · obtain ⟨t, rfl⟩ : ∃ t, fuel = t + 1 := ⟨fuel - 1, by omega⟩
      have hne : u / 10 ≠ 0 := by omega
      simp only [hne, if_false]
      rw [ih t (u / 10) _ (by omega) (by omega), FormatUint.loop, if_pos h10]
      simp only [List.map_cons, digitChar_byte _ (Nat.mod_lt u (by decide))]
    · have hz : u / 10 = 0 := by omega
      have hm : u % 10 = u := by omega
      simp only [hz, if_true, List.map_cons, hm, digitChar_byte u (by omega)]
      cases fuel with
      | zero => rw [FormatUint.loop]
      | succ t => rw [FormatUint.loop, if_neg h10]

theorem FormatUint_eq_toString (u : Nat) : FormatUint u = asciiBytes (toString u) := by
  have h := toDigitsCore_map (u + 1) u u [] (by omega) (by omega)
  simp only [List.map_nil] at h
  rw [FormatUint, ← h]
  rfl

theorem message_eq (clientSeed : List UInt8) (nonce : Nat) :
    clientSeed ++ [45] ++ FormatUint nonce = Spec.message clientSeed nonce := by
  rw [Spec.message, FormatUint_eq_toString]
  rfl

/-! ## Facts about `float64` values -/

theorem Float64.round_ne_nan (neg : Bool) (n d : Nat) : Float64.round neg n d ≠ .nan := by
  unfold Float64.round
  by_cases h0 : n = 0 ∨ d = 0
  · rw [if_pos h0]; simp
  · rw [if_neg h0]
    dsimp only
    split_ifs <;> simp

theorem Float64.hundred_eq : Float64.const 100 1 = .finite false 7036874417766400 (-46) := by
  decide!

theorem Float64.outcome_ne_nan (k : Nat) :
    Float64.div (Float64.ofUint64 k) (Float64.const 100 1) ≠ .nan := by
  rw [Float64.hundred_eq]
  cases h : Float64.ofUint64 k with
  | nan => exact absurd h (Float64.round_ne_nan _ _ _)
  | inf s => simp [Float64.div]
  | finite s m e =>
    simp only [Float64.div]
    rw [if_neg (by decide)]
    exact Float64.round_ne_nan _ _ _

theorem Float64.eq_self {x : Float64} (h : x ≠ .nan) : Float64.eq x x = true := by
  cases x with
  | nan => exact absurd rfl h
  | inf s => simp [Float64.eq]
  | finite s m e => simp [Float64.eq]

theorem Float64.eq_symm (x y : Float64) : Float64.eq x y = Float64.eq y x := by
  cases x <;> cases y <;> simp only [Float64.eq, min_comm, Bool.beq_comm]
  exact decide_eq_decide.mpr ⟨Eq.symm, Eq.symm⟩

/-! ## Creation -/

theorem Slice.isNil_of_len {s : Slice} (h : s.len ≠ 0) : s.isNil = false := by
  cases s with
  | nil => exact absurd rfl h
  | mk bs => rfl

theorem Slice.len_of_isNil {s : Slice} (h : s.isNil = true) : s.len = 0 := by
  cases s with
  | nil => rfl
  | mk bs => exact absurd h (by simp [Slice.isNil])

theorem NewGame_blank (H : Hashes) (clientSeed serverSeed : Slice) (rng : RandSource)
    (h : clientSeed.len = 0) :
    NewGame H clientSeed serverSeed rng = ((none, some .ErrClientSeedBlank), rng) := by
  simp [NewGame, h]

theorem NewGame_given (H : Hashes) (clientSeed serverSeed : Slice) (rng : RandSource)
    (hcs : clientSeed.len ≠ 0) (hss : serverSeed.len ≠ 0) :
    NewGame H clientSeed serverSeed rng =
      ((some ⟨clientSeed, serverSeed, .mk (H.sha256 serverSeed.bytes).val, 0⟩, none), rng) := by
  simp [NewGame, hcs, hss, Slice.isNil_of_len hcs, Slice.isNil_of_len hss]

theorem NewGame_generated (H : Hashes) (clientSeed serverSeed : Slice) (rng : RandSource)
    (hcs : clientSeed.len ≠ 0) (hss : serverSeed.len = 0) :
    NewGame H clientSeed serverSeed rng =
      match rng.Read 32 with
      | ((_, some err), rng') => ((none, some err), rng')
      | ((seed, none), rng') =>
        ((some ⟨clientSeed, .mk seed, .mk (H.sha256 seed).val, 0⟩, none), rng') := by
  rcases hr : rng.Read 32 with ⟨⟨seed, _ | err⟩, rng'⟩ <;>
    simp [NewGame, hcs, hss, Slice.isNil_of_len hcs, newServerSeed, hr, Slice.bytes]

theorem Calculate_congr (H : Hashes) {g g' : Game} (hc : g.ClientSeed.bytes = g'.ClientSeed.bytes)
    (hs : g.ServerSeed.bytes = g'.ServerSeed.bytes) (hn : g.Nonce = g'.Nonce) :
    Calculate H g = Calculate H g' := by
  simp only [Calculate, CalculateHMAC, hc, hs, hn]

theorem Calculate_error_zero (H : Hashes) (g : Game) {err : Error}
    (h : (Calculate H g).2 = some err) : Calculate H g = (Float64.zero, some err) := by
  rw [Calculate_eq] at h ⊢
  cases hsel : Spec.selectedValue (CalculateHMAC H g) with
  | some v => rw [hsel] at h; simp at h
  | none =>
    rw [hsel] at h
    simp only [Option.some.injEq] at h
    simp [h]

theorem Calculate_ok_eq (H : Hashes) (g : Game) (h : (Calculate H g).2 = none) :
    Float64.eq (Calculate H g).1 (Calculate H g).1 = true := by
  rw [Calculate_eq] at h ⊢
  cases hsel : Spec.selectedValue (CalculateHMAC H g) with
  | some v => exact Float64.eq_self (Float64.outcome_ne_nan _)
  | none => rw [hsel] at h; simp at h

/-! ## The claims -/

/-- C1: when `Calculate` succeeds on a game, the MAC hex string has 128 characters, one of
its 25 windows at offsets 0, 5, ..., 120 has a base-16 value of at most 999999, and for the
value `v` of the first such window the outcome is `float64(v % 10000) / 100`: the modulo is
taken on the integer, which is then converted and divided. -/
theorem C1_outcome_of_first_accepted_window (H : Hashes) (g : Game)
    (hok : (Calculate H g).2 = none) :
    (CalculateHMAC H g).length = 128 ∧
      ∃ v, Spec.selectedValue (CalculateHMAC H g) = some v ∧ v ≤ 999999 ∧
        (Calculate H g).1 =
          Float64.div (Float64.ofUint64 (v % 10000)) (Float64.const 100 1) := by
  refine ⟨CalculateHMAC_length H g, ?_⟩
  rw [Calculate_eq] at hok ⊢
  cases hsel : Spec.selectedValue (CalculateHMAC H g) with
  | none => rw [hsel] at hok; simp at hok
  | some v =>
    refine ⟨v, rfl, ?_, rfl⟩
    have hv := List.find?_some hsel
    simpa using hv

set_option maxRecDepth 100000 in
/-- C1 at the example game of the tests, whose first window `aa671` is 697969. -/
theorem C1_outcome_of_first_accepted_window_witness :
    (Calculate goStd ExampleGame).2 = none ∧
      ((CalculateHMAC goStd ExampleGame).length = 128 ∧
        ∃ v, Spec.selectedValue (CalculateHMAC goStd ExampleGame) = some v ∧ v ≤ 999999 ∧
          (Calculate goStd ExampleGame).1 =
            Float64.div (Float64.ofUint64 (v % 10000)) (Float64.const 100 1)) :=
  ⟨by decide!, C1_outcome_of_first_accepted_window goStd ExampleGame (by decide!)⟩

/-- C4: for every game, the MAC is 64 bytes long and `CalculateHMAC` returns its lowercase
hexadecimal encoding, two characters per byte: 128 bytes, each one of `0`-`9` or `a`-`f`.
The MAC is keyed with `ServerSeed` and taken over `ClientSeed`, the byte `-` and the
decimal ASCII representation of `Nonce`. -/
theorem C4_hmac_hex_encoding (H : Hashes) (g : Game) :
    (H.hmacSHA512 g.ServerSeed.bytes (Spec.message g.ClientSeed.bytes g.Nonce)).val.length = 64 ∧
      CalculateHMAC H g =
        Spec.hexString
          (H.hmacSHA512 g.ServerSeed.bytes (Spec.message g.ClientSeed.bytes g.Nonce)).val ∧
      (CalculateHMAC H g).length = 128 ∧
      ∀ c ∈ CalculateHMAC H g,
        (48 ≤ c.toNat ∧ c.toNat ≤ 57) ∨ (97 ≤ c.toNat ∧ c.toNat ≤ 102) := by
  refine ⟨(H.hmacSHA512 _ _).property, ?_, CalculateHMAC_length H g, ?_⟩
  · rw [CalculateHMAC_eq, message_eq, hexEncode_eq_hexString]
  · intro c hc
    have hall : ∀ c ∈ hextable,
        (48 ≤ c.toNat ∧ c.toNat ≤ 57) ∨ (97 ≤ c.toNat ∧ c.toNat ≤ 102) := by decide
    exact hall c (CalculateHMAC_mem H g hc)

/-- C6: if `Calculate` fails on a game, `Roll` returns outcome 0 with that same error and
leaves the game as it was, `Nonce` included; and whenever `Roll` changes the game,
`Calculate` had succeeded. -/
theorem C6_no_advance_on_failure (H : Hashes) (g : Game) (err : Error)
    (hfail : (Calculate H g).2 = some err) :
    Roll H g = ((Float64.zero, some err), g) ∧ (Roll H g).2.Nonce = g.Nonce ∧
      ∀ g' : Game, (Roll H g').2 ≠ g' → (Calculate H g').2 = none := by
  have h := Calculate_error_zero H g hfail
  refine ⟨by simp [Roll, h], by simp [Roll, h], ?_⟩
  intro g' hne
  rcases hc : Calculate H g' with ⟨roll, _ | e⟩
  · rfl
  · exact absurd (by simp [Roll, hc]) hne

/-- C6 on a game whose MAC has every window over the threshold. -/
theorem C6_no_advance_on_failure_witness :
    (Calculate stuckHashes ExampleGame).2 = some .ErrInvalidNonce ∧
      (Roll stuckHashes ExampleGame = ((Float64.zero, some .ErrInvalidNonce), ExampleGame) ∧
        (Roll stuckHashes ExampleGame).2.Nonce = ExampleGame.Nonce ∧
        ∀ g' : Game, (Roll stuckHashes g').2 ≠ g' → (Calculate stuckHashes g').2 = none) :=
  ⟨by decide!, C6_no_advance_on_failure stuckHashes ExampleGame .ErrInvalidNonce (by decide!)⟩

/-- C7: for non-empty seeds, `Verfiy` returns, leaves the random source alone, and its
result is read off `Calculate` on the game with these seeds and this nonce: `(false, err)`
when that fails with `err`, and `(roll == randNum, nil)` when it gives `roll`. -/
theorem C7_verify_recomputes (H : Hashes) (clientSeed serverSeed : Slice) (nonce : Nat)
    (randNum : Float64) (rng : RandSource) (hcs : clientSeed.len ≠ 0)
    (hss : serverSeed.len ≠ 0) :
    Verfiy H clientSeed serverSeed nonce randNum rng =
      (.returns
        (match Calculate H ⟨clientSeed, serverSeed, .mk (H.sha256 serverSeed.bytes).val, nonce⟩ with
          | (_, some err) => (false, some err)
          | (roll, none) => (Float64.eq roll randNum, none)), rng) := by
  simp only [Verfiy, Verfiy.game, NewGame_given H clientSeed serverSeed rng hcs hss]
  rcases Calculate H ⟨clientSeed, serverSeed, .mk (H.sha256 serverSeed.bytes).val, nonce⟩ with
    ⟨roll, _ | e⟩ <;> rfl

/-- C7 at the example seeds, nonce 3 and a claimed outcome of 50. -/
theorem C7_verify_recomputes_witness :
    ExampleClientSeed.len ≠ 0 ∧ ExampleServerSeed.len ≠ 0 ∧
      Verfiy goStd ExampleClientSeed ExampleServerSeed 3 (Float64.const 50 1) zeroSource =
        (.returns
          (match Calculate goStd ⟨ExampleClientSeed, ExampleServerSeed,
              .mk (goStd.sha256 ExampleServerSeed.bytes).val, 3⟩ with
            | (_, some err) => (false, some err)
            | (roll, none) => (Float64.eq roll (Float64.const 50 1), none)), zeroSource) :=
  ⟨by decide, by decide,
    C7_verify_recomputes goStd ExampleClientSeed ExampleServerSeed 3 (Float64.const 50 1)
      zeroSource (by decide) (by decide)⟩

/-- C10: `NewGame` on a nil or zero-length client seed returns a nil game and
`ErrClientSeedBlank`, whatever the server seed, and leaves the random source as it was. -/
theorem C10_blank_client_seed (H : Hashes) (clientSeed serverSeed : Slice) (rng : RandSource)
    (hblank : clientSeed = .nil ∨ clientSeed.len = 0) :
    NewGame H clientSeed serverSeed rng = ((none, some .ErrClientSeedBlank), rng) := by
  refine NewGame_blank H clientSeed serverSeed rng ?_
  rcases hblank with h | h
  · rw [h]; rfl
  · exact h

/-- C10 on the empty, non-nil client seed and a nil server seed. -/
theorem C10_blank_client_seed_witness :
    (Slice.mk [] = .nil ∨ (Slice.mk []).len = 0) ∧
      NewGame goStd (.mk []) .nil brokenSource =
        ((none, some .ErrClientSeedBlank), brokenSource) :=
  ⟨Or.inr rfl, C10_blank_client_seed goStd (.mk []) .nil brokenSource (Or.inr rfl)⟩

/-- C16: `Calculate` fails exactly when each of the 25 windows at offsets 0, 5, ..., 120 of
the MAC hex string has a base-16 value over 999999; its only error is `ErrInvalidNonce`,
since `strconv.ParseUint` returns no error on any of the windows. -/
theorem C16_fails_iff_every_window_over (H : Hashes) (g : Game) :
    ((Calculate H g).2 ≠ none ↔
        ∀ i < 25, 999999 < Spec.base16 (Spec.window (CalculateHMAC H g) i)) ∧
      ((Calculate H g).2 = none ∨ (Calculate H g).2 = some .ErrInvalidNonce) ∧
      ∀ i < 25, (ParseUint (Spec.window (CalculateHMAC H g) i)).2 = none := by
  have hlen := CalculateHMAC_length H g
  have hmem : ∀ c ∈ CalculateHMAC H g, c ∈ hextable := fun c hc => CalculateHMAC_mem H g hc
  refine ⟨?_, ?_, ?_⟩
  · rw [Calculate_eq]
    cases hsel : Spec.selectedValue (CalculateHMAC H g) with
    | some v =>
      have hv := List.find?_some hsel
      have hin := List.mem_of_find?_eq_some hsel
      simp only [Spec.windowValues, List.mem_map, List.mem_range] at hin
      obtain ⟨i, hi, hiv⟩ := hin
      simp only [decide_eq_true_eq] at hv
      simp only [ne_eq, not_true_eq_false, false_iff, not_forall]
      exact ⟨i, hi, by omega⟩
    | none =>
      simp only [Spec.selectedValue, List.find?_eq_none, Spec.windowValues, List.mem_map,
        List.mem_range, decide_eq_true_eq] at hsel
      simp only [ne_eq, reduceCtorEq, not_false_eq_true, true_iff]
      intro i hi
      have := hsel _ ⟨i, hi, rfl⟩
      omega
  · rw [Calculate_eq]
    cases Spec.selectedValue (CalculateHMAC H g) <;> simp
  · intro i hi
    have h := window_hex hlen hmem i hi
    rw [Nat.mul_comm] at h
    rw [Spec.window, h]

/-- C17: `Verfiy` drops the error of `NewGame` and assigns to `game.Nonce`. It panics on
the nil pointer exactly when the client seed is nil or empty, or the server seed is nil or
empty and the read of the random source fails; otherwise `NewGame` gave a game and
`Verfiy` returns. With a blank client seed `NewGame` has returned `ErrClientSeedBlank`,
which `Verfiy` never returns. -/
theorem C17_verify_nil_dereference (H : Hashes) (clientSeed serverSeed : Slice) (nonce : Nat)
    (randNum : Float64) (rng : RandSource) :
    ((Verfiy H clientSeed serverSeed nonce randNum rng).1 = .panics ↔
        clientSeed.len = 0 ∨ (serverSeed.len = 0 ∧ rng.failure rng.reads ≠ none)) ∧
      ((NewGame H clientSeed serverSeed rng).1.1 = none ↔
        (Verfiy H clientSeed serverSeed nonce randNum rng).1 = .panics) ∧
      (clientSeed.len = 0 →
        (NewGame H clientSeed serverSeed rng).1 = (none, some .ErrClientSeedBlank) ∧
          (Verfiy H clientSeed serverSeed nonce randNum rng).1 = .panics) := by
  have hret : ∀ (g : Game) (r : RandSource),
      (match Calculate H g with
        | (_, some err) => ((Exec.returns (false, some err) : Exec (Bool × Option Error)), r)
        | (roll, none) => (.returns (Float64.eq roll randNum, none), r)).1 ≠ .panics := by
    intro g r
    rcases Calculate H g with ⟨roll, _ | e⟩ <;> simp
  by_cases hcs : clientSeed.len = 0
  · have hn := NewGame_blank H clientSeed serverSeed rng hcs
    simp [Verfiy, Verfiy.game, hn, hcs]
  · by_cases hss : serverSeed.len = 0
    · have hn := NewGame_generated H clientSeed serverSeed rng hcs hss
      cases hf : rng.failure rng.reads with
      | none =>
        simp only [RandSource.Read, hf] at hn
        have h1 := hret ⟨clientSeed, .mk ((List.range 32).map fun i => rng.stream (rng.pos + i)),
          .mk (H.sha256 ((List.range 32).map fun i => rng.stream (rng.pos + i))).val, nonce⟩
          { rng with pos := rng.pos + 32, reads := rng.reads + 1 }
        simp only [Verfiy, Verfiy.game, hn, hcs, hss, hf] at h1 ⊢
        simp [h1]
      | some code =>
        simp only [RandSource.Read, hf] at hn
        simp [Verfiy, Verfiy.game, hn, hcs, hss, hf]
    · have hn := NewGame_given H clientSeed serverSeed rng hcs hss
      have h1 := hret ⟨clientSeed, serverSeed, .mk (H.sha256 serverSeed.bytes).val, nonce⟩ rng
      simp only [Verfiy, Verfiy.game, hn, hcs, hss] at h1 ⊢
      simp [h1]

/-- C17 on concrete inputs: a panic on an empty client seed, a panic on a failed read for a
nil server seed, and a return on the example seeds. -/
theorem C17_verify_nil_dereference_witness :
    (Verfiy goStd (.mk []) ExampleServerSeed 0 Float64.zero zeroSource).1 = .panics ∧
      (Verfiy goStd ExampleClientSeed .nil 0 Float64.zero brokenSource).1 = .panics ∧
      (Verfiy goStd ExampleClientSeed ExampleServerSeed 0 Float64.zero zeroSource).1 ≠ .panics :=
  ⟨((C17_verify_nil_dereference goStd (.mk []) ExampleServerSeed 0 Float64.zero zeroSource).1).2
      (Or.inl rfl),
    ((C17_verify_nil_dereference goStd ExampleClientSeed .nil 0 Float64.zero brokenSource).1).2
      (Or.inr ⟨rfl, by decide⟩),
    fun h =>
      absurd (((C17_verify_nil_dereference goStd ExampleClientSeed ExampleServerSeed 0
        Float64.zero zeroSource).1).1 h) (by decide)⟩

/-! ## Rolls and the fields they leave -/

theorem Roll_fail {H : Hashes} {g g' : Game} {r : Float64} {err : Error}
    (h : Roll H g = ((r, some err), g')) :
    Calculate H g = (Float64.zero, some err) ∧ g' = g ∧ r = Float64.zero := by
  rcases hc : Calculate H g with ⟨roll, _ | e⟩
  · simp [Roll, hc] at h
  · simp only [Roll, hc, Prod.mk.injEq, Option.some.injEq] at h
    obtain ⟨⟨hr, he⟩, hg⟩ := h
    have hz := @Calculate_error_zero H g e (by rw [hc])
    rw [hc] at hz
    simp only [Prod.mk.injEq] at hz
    subst he
    exact ⟨by rw [hz.1], hg.symm, by rw [← hr, hz.1]⟩

theorem Read_length (n : Nat) (rng : RandSource) : ((rng.Read n).1.1).length = n := by
  unfold RandSource.Read
  cases rng.failure rng.reads <;> simp

theorem NewGame_some {H : Hashes} {clientSeed serverSeed : Slice} {rng rng' : RandSource}
    {g : Game} {err : Option Error} (h : NewGame H clientSeed serverSeed rng = ((some g, err), rng')) :
    err = none ∧ clientSeed.len ≠ 0 ∧ g.ClientSeed = clientSeed ∧ g.Nonce = 0 ∧
      g.BlindedServerSeed = .mk (H.sha256 g.ServerSeed.bytes).val ∧
      (serverSeed.len ≠ 0 → g.ServerSeed = serverSeed ∧ rng' = rng) ∧
      (serverSeed.len = 0 → (rng.Read 32).1.2 = none ∧ g.ServerSeed = .mk (rng.Read 32).1.1 ∧
        rng' = (rng.Read 32).2) := by
  by_cases hcs : clientSeed.len = 0
  · rw [NewGame_blank H clientSeed serverSeed rng hcs] at h
    simp at h
  · by_cases hss : serverSeed.len = 0
    · rw [NewGame_generated H clientSeed serverSeed rng hcs hss] at h
      rcases hr : rng.Read 32 with ⟨⟨seed, _ | e⟩, r⟩
      · rw [hr] at h
        simp only [Prod.mk.injEq, Option.some.injEq] at h
        obtain ⟨⟨hg, he⟩, hrng⟩ := h
        subst hg
        exact ⟨he.symm, hcs, rfl, rfl, rfl, fun h' => absurd hss h', fun _ => ⟨rfl, rfl, hrng.symm⟩⟩
      · rw [hr] at h
        simp at h
    · rw [NewGame_given H clientSeed serverSeed rng hcs hss] at h
      simp only [Prod.mk.injEq, Option.some.injEq] at h
      obtain ⟨⟨hg, he⟩, hrng⟩ := h
      subst hg
      exact ⟨he.symm, hcs, rfl, rfl, rfl, fun _ => ⟨rfl, hrng.symm⟩, fun h' => absurd h' hss⟩

/-- C11: for non-empty seeds `NewGame` returns no error, leaves the random source alone,
and gives a game with `Nonce = 0`, the two seeds as given, and `BlindedServerSeed` the
32-byte SHA-256 digest of the server seed: hashing the game's `ServerSeed` again gives the
same value. -/
theorem C11_new_game_with_given_seeds (H : Hashes) (clientSeed serverSeed : Slice)
    (rng : RandSource) (hcs : clientSeed.len ≠ 0) (hss : serverSeed.len ≠ 0) :
    ∃ g, NewGame H clientSeed serverSeed rng = ((some g, none), rng) ∧ g.Nonce = 0 ∧
      g.ClientSeed = clientSeed ∧ g.ServerSeed = serverSeed ∧
      g.BlindedServerSeed = .mk (H.sha256 serverSeed.bytes).val ∧
      g.BlindedServerSeed.len = 32 ∧
      g.BlindedServerSeed = .mk (H.sha256 g.ServerSeed.bytes).val :=
  ⟨_, NewGame_given H clientSeed serverSeed rng hcs hss, rfl, rfl, rfl, rfl,
    (H.sha256 serverSeed.bytes).property, rfl⟩

/-- C11 on the example seeds, whose game is `ExampleGame`. -/
theorem C11_new_game_with_given_seeds_witness :
    ExampleClientSeed.len ≠ 0 ∧ ExampleServerSeed.len ≠ 0 ∧
      ∃ g, NewGame goStd ExampleClientSeed ExampleServerSeed zeroSource =
          ((some g, none), zeroSource) ∧ g.Nonce = 0 ∧
        g.ClientSeed = ExampleClientSeed ∧ g.ServerSeed = ExampleServerSeed ∧
        g.BlindedServerSeed = .mk (goStd.sha256 ExampleServerSeed.bytes).val ∧
        g.BlindedServerSeed.len = 32 ∧
        g.BlindedServerSeed = .mk (goStd.sha256 g.ServerSeed.bytes).val :=
  ⟨by decide, by decide,
    C11_new_game_with_given_seeds goStd ExampleClientSeed ExampleServerSeed zeroSource
      (by decide) (by decide)⟩

/-- C12: for a non-empty client seed and a nil or empty server seed, `NewGame` makes one
read of 32 bytes from the random source. If the read succeeds, the game has the 32 bytes
read as `ServerSeed`, their 32-byte SHA-256 digest as `BlindedServerSeed`, the client seed
given and `Nonce = 0`; if it fails, `NewGame` returns a nil game and the error of the read. -/
theorem C12_generated_server_seed (H : Hashes) (clientSeed serverSeed : Slice)
    (rng : RandSource) (hcs : clientSeed.len ≠ 0)
    (hss : serverSeed = .nil ∨ serverSeed.len = 0) :
    (NewGame H clientSeed serverSeed rng).2 = (rng.Read 32).2 ∧
      (rng.Read 32).2.reads = rng.reads + 1 ∧
      ((rng.Read 32).1.2 = none →
        ∃ g, (NewGame H clientSeed serverSeed rng).1 = (some g, none) ∧
          g.ServerSeed = .mk (rng.Read 32).1.1 ∧ g.ServerSeed.len = 32 ∧
          g.BlindedServerSeed = .mk (H.sha256 (rng.Read 32).1.1).val ∧
          g.BlindedServerSeed.len = 32 ∧ g.ClientSeed = clientSeed ∧ g.Nonce = 0) ∧
      (∀ err, (rng.Read 32).1.2 = some err →
        (NewGame H clientSeed serverSeed rng).1 = (none, some err)) := by
  have hlen : serverSeed.len = 0 := by
    rcases hss with h | h
    · rw [h]; rfl
    · exact h
  have hn := NewGame_generated H clientSeed serverSeed rng hcs hlen
  have hl := Read_length 32 rng
  have hreads : (rng.Read 32).2.reads = rng.reads + 1 := by
    unfold RandSource.Read
    cases rng.failure rng.reads <;> rfl
  rcases hr : rng.Read 32 with ⟨⟨seed, _ | e⟩, r⟩
  · rw [hr] at hn hl hreads
    simp only at hn hl hreads
    rw [hn]
    refine ⟨rfl, hreads, fun _ => ⟨_, rfl, rfl, hl, rfl, (H.sha256 seed).property, rfl, rfl⟩, ?_⟩
    intro err herr
    simp at herr
  · rw [hr] at hn hreads
    simp only at hn hreads
    rw [hn]
    refine ⟨rfl, hreads, fun h => by simp at h, ?_⟩
    intro err herr
    simp only [Option.some.injEq] at herr
    rw [herr]

/-- C12 on a nil server seed and a source of zero bytes: the game has 32 zero bytes as
its server seed. -/
theorem C12_generated_server_seed_witness :
    ExampleClientSeed.len ≠ 0 ∧ (Slice.nil = .nil ∨ Slice.nil.len = 0) ∧
      (zeroSource.Read 32).1 = (List.replicate 32 0, none) ∧
      ((NewGame goStd ExampleClientSeed .nil zeroSource).2 = (zeroSource.Read 32).2 ∧
        (zeroSource.Read 32).2.reads = zeroSource.reads + 1 ∧
        ((zeroSource.Read 32).1.2 = none →
          ∃ g, (NewGame goStd ExampleClientSeed .nil zeroSource).1 = (some g, none) ∧
            g.ServerSeed = .mk (zeroSource.Read 32).1.1 ∧ g.ServerSeed.len = 32 ∧
            g.BlindedServerSeed = .mk (goStd.sha256 (zeroSource.Read 32).1.1).val ∧
            g.BlindedServerSeed.len = 32 ∧ g.ClientSeed = ExampleClientSeed ∧ g.Nonce = 0) ∧
        (∀ err, (zeroSource.Read 32).1.2 = some err →
          (NewGame goStd ExampleClientSeed .nil zeroSource).1 = (none, some err))) :=
  ⟨by decide, Or.inl rfl, by decide,
    C12_generated_server_seed goStd ExampleClientSeed .nil zeroSource (by decide) (Or.inl rfl)⟩

/-- C19: if a `Roll` on a game returns an error, it returned outcome 0 and left the game
as it was, and every later `Roll` returns outcome 0 with that same error and leaves the
same game: `Nonce` never changes again. -/
theorem C19_failed_roll_is_permanent (H : Hashes) (g g' : Game) (r : Float64) (err : Error)
    (k : Nat) (hfail : Roll H g = ((r, some err), g')) :
    g' = g ∧ (Rolls H k g').2 = g ∧ (Rolls H k g').2.Nonce = g.Nonce ∧
      (Rolls H k g').1 = List.replicate k (Float64.zero, some err) := by
  obtain ⟨hc, hg, _⟩ := Roll_fail hfail
  subst hg
  have hroll : Roll H g' = ((Float64.zero, some err), g') := by simp [Roll, hc]
  have hk : (Rolls H k g').2 = g' ∧
      (Rolls H k g').1 = List.replicate k (Float64.zero, some err) := by
    induction k with
    | zero => exact ⟨rfl, rfl⟩
    | succ k ih =>
      simp only [Rolls, hroll, List.replicate_succ]
      exact ⟨ih.1, by rw [ih.2]⟩
  exact ⟨rfl, hk.1, by rw [hk.1], hk.2⟩

/-- C19 on a game whose MAC has every window over the threshold, for five later rolls. -/
theorem C19_failed_roll_is_permanent_witness :
    Roll stuckHashes ExampleGame = ((Float64.zero, some .ErrInvalidNonce), ExampleGame) ∧
      (ExampleGame = ExampleGame ∧ (Rolls stuckHashes 5 ExampleGame).2 = ExampleGame ∧
        (Rolls stuckHashes 5 ExampleGame).2.Nonce = ExampleGame.Nonce ∧
        (Rolls stuckHashes 5 ExampleGame).1 =
          List.replicate 5 (Float64.zero, some .ErrInvalidNonce)) :=
  ⟨by decide!,
    C19_failed_roll_is_permanent stuckHashes ExampleGame ExampleGame Float64.zero
      .ErrInvalidNonce 5 (by decide!)⟩

/-! ## The MAC message -/

theorem FormatUint_loop_digits :
    ∀ (turns u : Nat) (a : List UInt8), u ≤ turns →
      ∃ ds : List UInt8, FormatUint.loop turns u a = ds ++ a ∧
        (∀ c ∈ ds, 48 ≤ c.toNat ∧ c.toNat ≤ 57) ∧
        ds.foldl (fun x c => 10 * x + (c.toNat - 48)) 0 = u := by
  intro turns
  induction turns with
  | zero =>
    intro u a hu
    have h0 : u = 0 := by omega
    subst h0
    refine ⟨[UInt8.ofNat 48], rfl, ?_, ?_⟩ <;> decide
  | succ t ih =>
    intro u a hu
    rw [FormatUint.loop]
    by_cases h10 : 10 ≤ u
    · rw [if_pos h10]
      obtain ⟨ds, hds, hdig, hval⟩ := ih (u / 10) (UInt8.ofNat (48 + u % 10) :: a) (by omega)
      have hb : (UInt8.ofNat (48 + u % 10)).toNat = 48 + u % 10 :=
        UInt8.toNat_ofNat_of_lt (by simp only [UInt8.size]; omega)
      refine ⟨ds ++ [UInt8.ofNat (48 + u % 10)], by rw [hds]; simp, ?_, ?_⟩
      · intro c hc
        rcases List.mem_append.mp hc with h | h
        · exact hdig c h
        · rw [List.mem_singleton.mp h, hb]; omega
      · rw [List.foldl_append, hval]
        simp only [List.foldl_cons, List.foldl_nil, hb]
        omega
    · rw [if_neg h10]
      have hb : (UInt8.ofNat (48 + u)).toNat = 48 + u :=
        UInt8.toNat_ofNat_of_lt (by simp only [UInt8.size]; omega)
      refine ⟨[UInt8.ofNat (48 + u)], rfl, ?_, ?_⟩
      · intro c hc
        rw [List.mem_singleton.mp hc, hb]; omega
      · simp only [List.foldl_cons, List.foldl_nil, hb]
        omega

theorem FormatUint_digits (u : Nat) :
    (∀ c ∈ FormatUint u, 48 ≤ c.toNat ∧ c.toNat ≤ 57) ∧
      (FormatUint u).foldl (fun x c => 10 * x + (c.toNat - 48)) 0 = u := by
  obtain ⟨ds, hds, hdig, hval⟩ := FormatUint_loop_digits u u [] (Nat.le_refl u)
  rw [FormatUint, hds, List.append_nil]
  exact ⟨hdig, hval⟩

theorem FormatUint_injective {u v : Nat} (h : FormatUint u = FormatUint v) : u = v := by
  rw [← (FormatUint_digits u).2, ← (FormatUint_digits v).2, h]

theorem split_at_separator {x : UInt8} :
    ∀ {c1 c2 d1 d2 : List UInt8}, x ∉ d1 → x ∉ d2 → c1 ++ x :: d1 = c2 ++ x :: d2 →
      c1 = c2 ∧ d1 = d2 := by
  intro c1 c2 d1 d2 h1 h2 h
  rcases List.append_eq_append_iff.mp h with ⟨a, hc, hd⟩ | ⟨a, hc, hd⟩
  · cases a with
    | nil =>
      simp only [List.append_nil, List.nil_append, List.cons.injEq, true_and] at hc hd
      exact ⟨hc.symm, hd⟩
    | cons y a =>
      simp only [List.cons_append, List.cons.injEq] at hd
      exact absurd (by rw [hd.2]; simp) h1
  · cases a with
    | nil =>
      simp only [List.append_nil, List.nil_append, List.cons.injEq, true_and] at hc hd
      exact ⟨hc, hd.symm⟩
    | cons y a =>
      simp only [List.cons_append, List.cons.injEq] at hd
      exact absurd (by rw [hd.2]; simp) h2

/-- C18: the message `CalculateHMAC` feeds to the HMAC, `ClientSeed`, the byte `-` and
the nonce in decimal, determines the client seed and the nonce, also when the client
seeds hold `-` or digit bytes: two games with the same message have the same `ClientSeed`
bytes and the same `Nonce`. -/
theorem C18_message_is_injective (c1 c2 : List UInt8) (n1 n2 : Nat)
    (h : c1 ++ [45] ++ FormatUint n1 = c2 ++ [45] ++ FormatUint n2) :
    c1 = c2 ∧ n1 = n2 := by
  have hno : ∀ u, (45 : UInt8) ∉ FormatUint u := by
    intro u hu
    have := (FormatUint_digits u).1 45 hu
    exact absurd this (by decide)
  simp only [List.append_assoc, List.singleton_append] at h
  obtain ⟨hc, hd⟩ := split_at_separator (hno n1) (hno n2) h
  exact ⟨hc, FormatUint_injective hd⟩

/-- C18 on the client seed `a-1` at nonce 23, whose message is `a-1-23`. -/
theorem C18_message_is_injective_witness :
    asciiBytes "a-1" ++ [45] ++ FormatUint 23 = asciiBytes "a-1-23" ∧
      asciiBytes "a-1" ++ [45] ++ FormatUint 23 = asciiBytes "a-1" ++ [45] ++ FormatUint 23 ∧
      asciiBytes "a-1" = asciiBytes "a-1" ∧ 23 = 23 :=
  ⟨by decide, rfl, C18_message_is_injective (asciiBytes "a-1") (asciiBytes "a-1") 23 23 rfl⟩

/-! ## Successive rolls -/

theorem Roll_fst (H : Hashes) (g : Game) : (Roll H g).1 = Calculate H g := by
  rcases hc : Calculate H g with ⟨roll, _ | e⟩ <;> simp [Roll, hc]

theorem Roll_ok {H : Hashes} {g : Game} (h : (Roll H g).1.2 = none) :
    (Roll H g).2 = { g with Nonce := (g.Nonce + 1) % 2 ^ 64 } := by
  rcases hc : Calculate H g with ⟨roll, _ | e⟩
  · simp [Roll, hc]
  · simp [Roll, hc] at h

theorem Rolls_succ (H : Hashes) :
    ∀ (k : Nat) (g : Game),
      Rolls H (k + 1) g =
        ((Rolls H k g).1 ++ [(Roll H (Rolls H k g).2).1], (Roll H (Rolls H k g).2).2) := by
  intro k
  induction k with
  | zero => intro g; rfl
  | succ k ih =>
    intro g
    rw [Rolls, ih (Roll H g).2]
    rfl

theorem Rolls_state (H : Hashes) (g : Game) (k : Nat) (hk : g.Nonce + k < 2 ^ 64)
    (hok : ∀ i < k, (Roll H (Rolls H i g).2).1.2 = none) :
    ∀ i ≤ k, (Rolls H i g).2 = { g with Nonce := g.Nonce + i } := by
  intro i
  induction i with
  | zero => intro _; rfl
  | succ i ih =>
    intro hi
    rw [Rolls_succ]
    simp only
    rw [Roll_ok (hok i (by omega)), ih (by omega)]
    simp only [Game.mk.injEq, true_and]
    rw [Nat.mod_eq_of_lt (by omega)]
    omega

theorem Rolls_results (H : Hashes) (g : Game) (k : Nat) (hk : g.Nonce + k < 2 ^ 64)
    (hok : ∀ i < k, (Roll H (Rolls H i g).2).1.2 = none) :
    ∀ i ≤ k, (Rolls H i g).1 =
      (List.range i).map fun j => Calculate H { g with Nonce := g.Nonce + j } := by
  intro i
  induction i with
  | zero => intro _; rfl
  | succ i ih =>
    intro hi
    rw [Rolls_succ]
    simp only
    rw [ih (by omega), Roll_fst, Rolls_state H g k hk hok i (by omega), List.range_succ,
      List.map_append]
    rfl

/-! ## Verification -/

theorem Verfiy_given (H : Hashes) (clientSeed serverSeed : Slice) (nonce : Nat)
    (randNum : Float64) (rng : RandSource) (hcs : clientSeed.len ≠ 0)
    (hss : serverSeed.len ≠ 0) :
    Verfiy.game H clientSeed serverSeed nonce rng =
        (some ⟨clientSeed, serverSeed, .mk (H.sha256 serverSeed.bytes).val, nonce⟩, rng) ∧
      Verfiy H clientSeed serverSeed nonce randNum rng =
        (.returns
          (match Calculate H
              ⟨clientSeed, serverSeed, .mk (H.sha256 serverSeed.bytes).val, nonce⟩ with
            | (_, some err) => (false, some err)
            | (roll, none) => (Float64.eq roll randNum, none)), rng) := by
  simp only [Verfiy, Verfiy.game, NewGame_given H clientSeed serverSeed rng hcs hss, true_and]
  rcases Calculate H ⟨clientSeed, serverSeed, .mk (H.sha256 serverSeed.bytes).val, nonce⟩ with
    ⟨roll, _ | e⟩ <;> rfl

theorem Verfiy_blank (H : Hashes) (clientSeed serverSeed : Slice) (nonce : Nat)
    (randNum : Float64) (rng : RandSource) (hcs : clientSeed.len = 0) :
    Verfiy.game H clientSeed serverSeed nonce rng = (none, rng) ∧
      Verfiy H clientSeed serverSeed nonce randNum rng = (.panics, rng) := by
  simp [Verfiy, Verfiy.game, NewGame_blank H clientSeed serverSeed rng hcs]

/-- C8, as the code has it: for every client seed, nonce and claimed outcome and every
non-empty server seed, `Verfiy` leaves the random source alone, the game it computes on,
when there is one, has `ServerSeed` equal to the argument, and the result is the same
whatever the random source: a function of the four arguments alone. -/
theorem C8_verify_uses_given_server_seed (H : Hashes) (clientSeed serverSeed : Slice)
    (nonce : Nat) (randNum : Float64) (rng : RandSource) (hss : serverSeed.len ≠ 0) :
    (Verfiy.game H clientSeed serverSeed nonce rng).2 = rng ∧
      (Verfiy H clientSeed serverSeed nonce randNum rng).2 = rng ∧
      (∀ g, (Verfiy.game H clientSeed serverSeed nonce rng).1 = some g →
        g.ServerSeed = serverSeed) ∧
      ∀ rng' : RandSource, (Verfiy H clientSeed serverSeed nonce randNum rng).1 =
        (Verfiy H clientSeed serverSeed nonce randNum rng').1 := by
  by_cases hcs : clientSeed.len = 0
  · have h := fun r => Verfiy_blank H clientSeed serverSeed nonce randNum r hcs
    refine ⟨by rw [(h rng).1], by rw [(h rng).2], ?_, ?_⟩
    · intro g hg
      rw [(h rng).1] at hg
      simp at hg
    · intro rng'
      rw [(h rng).2, (h rng').2]
  · have h := fun r => Verfiy_given H clientSeed serverSeed nonce randNum r hcs hss
    refine ⟨by rw [(h rng).1], by rw [(h rng).2], ?_, ?_⟩
    · intro g hg
      rw [(h rng).1] at hg
      simp only [Option.some.injEq] at hg
      rw [← hg]
    · intro rng'
      rw [(h rng).2, (h rng').2]

/-- C8 on the example seeds. -/
theorem C8_verify_uses_given_server_seed_witness :
    ExampleServerSeed.len ≠ 0 ∧
      ((Verfiy.game goStd ExampleClientSeed ExampleServerSeed 0 zeroSource).2 = zeroSource ∧
        (Verfiy goStd ExampleClientSeed ExampleServerSeed 0 Float64.zero zeroSource).2 =
          zeroSource ∧
        (∀ g, (Verfiy.game goStd ExampleClientSeed ExampleServerSeed 0 zeroSource).1 = some g →
          g.ServerSeed = ExampleServerSeed) ∧
        ∀ rng' : RandSource,
          (Verfiy goStd ExampleClientSeed ExampleServerSeed 0 Float64.zero zeroSource).1 =
            (Verfiy goStd ExampleClientSeed ExampleServerSeed 0 Float64.zero rng').1) :=
  ⟨by decide,
    C8_verify_uses_given_server_seed goStd ExampleClientSeed ExampleServerSeed 0 Float64.zero
      zeroSource (by decide)⟩

set_option maxRecDepth 100000 in
/-- C8 fails on a nil server seed: `Verfiy` on the example client seed, nonce 0 and the
claimed outcome 55.4 reads the random source once, computes on a game whose `ServerSeed`
is the 32 bytes read and not the nil argument, and returns true when the source delivers
zero bytes and false when it delivers bytes `0xff`. -/
theorem C8_counterexample :
    (Verfiy.game goStd ExampleClientSeed .nil 0 zeroSource).2.reads = 1 ∧
      ((Verfiy.game goStd ExampleClientSeed .nil 0 zeroSource).1.map fun g => g.ServerSeed) =
        some (.mk (List.replicate 32 0)) ∧
      (Verfiy goStd ExampleClientSeed .nil 0 (Float64.const 5540 100) zeroSource).1 =
        .returns (true, none) ∧
      (Verfiy goStd ExampleClientSeed .nil 0 (Float64.const 5540 100) onesSource).1 =
        .returns (false, none) := by
  decide!

set_option maxRecDepth 100000 in
/-- C2: `NewGame` on the two example seeds returns `ExampleGame` without error and without
touching the random source; at nonces 0, 1, 2 and 3 `CalculateHMAC` returns the four hex
strings of `newTestRolls`, and four successive calls of `Roll` return 79.69, 61.18, 74.44
and 27.76 without error, each leaving the next nonce. -/
theorem C2_fixture_vectors (rng : RandSource) :
    NewGame goStd ExampleClientSeed ExampleServerSeed rng = ((some ExampleGame, none), rng) ∧
      ExampleGame.Nonce = 0 ∧
      CalculateHMAC goStd ExampleGame = asciiBytes
        "aa671aad5e4565ebffb8dc5c185e4df1ae6d9aca2578b5c03ec9c7750f881922276d8044e5e3d84f158ce411f667e224e9b0c1ac50fc94e9c5eb883a678f6ca2" ∧
      Roll goStd ExampleGame =
        ((Float64.const 7969 100, none), { ExampleGame with Nonce := 1 }) ∧
      CalculateHMAC goStd { ExampleGame with Nonce := 1 } = asciiBytes
        "7b9062b1a8188feff82d643c0c8f2883bc744240594952f55126b24c76b05648a73850905e68fe86fe64c9fbd9a9ef9f677264d3771bd98db64b022ad183da53" ∧
      Roll goStd { ExampleGame with Nonce := 1 } =
        ((Float64.const 6118 100, none), { ExampleGame with Nonce := 2 }) ∧
      CalculateHMAC goStd { ExampleGame with Nonce := 2 } = asciiBytes
        "a5644976f61b4012c0eb27848bbe3d05d43d34dcb89e2032b8d93ba0992b26ad916223caf9ba5421229508144a370ba053f27893b5e7f6e8283231cce90e1535" ∧
      Roll goStd { ExampleGame with Nonce := 2 } =
        ((Float64.const 7444 100, none), { ExampleGame with Nonce := 3 }) ∧
      CalculateHMAC goStd { ExampleGame with Nonce := 3 } = asciiBytes
        "8bd6805955d0ca66fb5eb672b75bd0874bea59ecbe1d21e101ad50faf19e7d67256d6d4714c53fa848d801d92874f72813a78e447431b1fd609ba328d18d3875" ∧
      Roll goStd { ExampleGame with Nonce := 3 } =
        ((Float64.const 2776 100, none), { ExampleGame with Nonce := 4 }) ∧
      (Rolls goStd 4 ExampleGame).1 =
        [(Float64.const 7969 100, none), (Float64.const 6118 100, none),
          (Float64.const 7444 100, none), (Float64.const 2776 100, none)] := by
  refine ⟨NewGame_given goStd ExampleClientSeed ExampleServerSeed rng (by decide) (by decide),
    rfl, ?_⟩
  decide!

/-! ## The rounding of `float64` -/

theorem Float64.log2Loop_spec :
    ∀ (turns n : Nat), 0 < n → n ≤ turns →
      2 ^ Float64.log2Loop turns n ≤ n ∧ n < 2 ^ (Float64.log2Loop turns n + 1) := by
  intro turns
  induction turns with
  | zero => intro n h0 h1; omega
  | succ t ih =>
    intro n h0 h1
    rw [Float64.log2Loop]
    by_cases h2 : 2 ≤ n
    · rw [if_pos h2]
      obtain ⟨hlo, hhi⟩ := ih (n / 2) (by omega) (by omega)
      rw [pow_succ] at hhi ⊢
      rw [pow_succ, pow_succ]
      constructor <;> omega
    · rw [if_neg h2]
      simp only [pow_zero, zero_add, pow_one]
      omega

theorem Float64.log2_spec (n : Nat) (hn : 0 < n) :
    2 ^ Float64.log2 n ≤ n ∧ n < 2 ^ (Float64.log2 n + 1) :=
  Float64.log2Loop_spec n n hn (Nat.le_refl n)

theorem Float64.exponent_lt (n d j : Nat) (hn : 0 < n) (hd : 0 < d) (h : n < 2 ^ j * d) :
    Float64.exponent n d < (j : Int) := by
  obtain ⟨hna, _⟩ := Float64.log2_spec n hn
  obtain ⟨_, hdb⟩ := Float64.log2_spec d hd
  have hlt : 2 ^ Float64.log2 n < 2 ^ (j + (Float64.log2 d + 1)) := by
    rw [pow_add]
    calc 2 ^ Float64.log2 n ≤ n := hna
      _ < 2 ^ j * d := h
      _ < 2 ^ j * 2 ^ (Float64.log2 d + 1) :=
        Nat.mul_lt_mul_of_pos_left hdb (Nat.pos_pow_of_pos _ (by decide))
  have hab : Float64.log2 n < j + (Float64.log2 d + 1) :=
    (Nat.pow_lt_pow_iff_right (by decide)).mp hlt
  unfold Float64.exponent
  simp only
  split_ifs with hcond
  · omega
  · by_contra hge
    have he0 : (Float64.log2 n : Int) - (Float64.log2 d : Int) = (j : Int) := by omega
    rw [he0] at hcond
    simp only [Int.toNat_neg_nat, pow_zero, mul_one, Int.toNat_ofNat] at hcond
    rw [Nat.mul_comm] at hcond
    exact hcond h

theorem Float64.significand_near (n d Q : Nat) (hd : 0 < d) :
    |(Float64.significand n d (-(Q : Int)) : ℚ) - (n : ℚ) * 2 ^ Q / d| ≤ 1 := by
  have hdq : (0 : ℚ) < d := by exact_mod_cast hd
  unfold Float64.significand
  simp only [neg_neg, Int.toNat_ofNat, Int.toNat_neg_nat, pow_zero, mul_one]
  have hdm := Nat.div_add_mod (n * 2 ^ Q) d
  have hmod := Nat.mod_lt (n * 2 ^ Q) hd
  have hcast : (n : ℚ) * 2 ^ Q =
      d * ((n * 2 ^ Q / d : Nat) : ℚ) + ((n * 2 ^ Q % d : Nat) : ℚ) := by
    exact_mod_cast hdm.symm
  have hx : (n : ℚ) * 2 ^ Q / d =
      ((n * 2 ^ Q / d : Nat) : ℚ) + ((n * 2 ^ Q % d : Nat) : ℚ) / d := by
    rw [hcast]
    field_simp
    ring
  have hr0 : (0 : ℚ) ≤ ((n * 2 ^ Q % d : Nat) : ℚ) / d := by positivity
  have hr1 : ((n * 2 ^ Q % d : Nat) : ℚ) / d < 1 := by
    rw [div_lt_one hdq]
    exact_mod_cast hmod
  rw [hx, abs_le]
  split_ifs
  · push_cast
    constructor <;> linarith
  · constructor <;> linarith

theorem Float64.round_eq (neg : Bool) (n d : Nat) (hn : 0 < n) (hd : 0 < d)
    (hq : max (Float64.exponent n d - 52) (-1074) ≤ 900) :
    ∃ m e, Float64.round neg n d = .finite neg m e ∧
      e ≤ max (Float64.exponent n d - 52) (-1074) + 1 ∧
      (m : ℚ) * 2 ^ e =
        (Float64.significand n d (max (Float64.exponent n d - 52) (-1074)) : ℚ) *
          2 ^ max (Float64.exponent n d - 52) (-1074) := by
  unfold Float64.round
  rw [if_neg (by omega)]
  simp only
  by_cases hs : Float64.significand n d (max (Float64.exponent n d - 52) (-1074)) = 2 ^ 53
  · rw [if_pos hs, if_pos hs, if_neg (by omega)]
    refine ⟨_, _, rfl, le_refl _, ?_⟩
    rw [hs, zpow_add_one₀ (by norm_num)]
    push_cast
    ring
  · rw [if_neg hs, if_neg hs, if_neg (by omega)]
    exact ⟨_, _, rfl, by omega, rfl⟩

theorem Float64.round_near (n d : Nat) (hn : 0 < n) (hd : 0 < d) (h : n < 100 * d) :
    ∃ m e, Float64.round false n d = .finite false m e ∧ e ≤ -45 ∧
      |(m : ℚ) * 2 ^ e - (n : ℚ) / d| ≤ 1 / 2 ^ 46 := by
  have hexp : Float64.exponent n d < ((7 : Nat) : Int) :=
    Float64.exponent_lt n d 7 hn hd (by omega)
  have hq : max (Float64.exponent n d - 52) (-1074) ≤ -46 := by
    simp only [Nat.cast_ofNat] at hexp
    omega
  obtain ⟨m, e, hr, he, hval⟩ := Float64.round_eq false n d hn hd (by omega)
  refine ⟨m, e, hr, by omega, ?_⟩
  obtain ⟨Q, hQ⟩ : ∃ Q : Nat, max (Float64.exponent n d - 52) (-1074) = -(Q : Int) :=
    ⟨(-(max (Float64.exponent n d - 52) (-1074))).toNat, by omega⟩
  have hQ46 : 46 ≤ Q := by omega
  rw [hval, hQ]
  have hnear := Float64.significand_near n d Q hd
  have h2 : (0 : ℚ) < 2 ^ Q := by positivity
  have hpow : (2 : ℚ) ^ (-(Q : Int)) = 1 / 2 ^ Q := by
    rw [zpow_neg, zpow_natCast, one_div]
  have hle : (1 : ℚ) / 2 ^ Q ≤ 1 / 2 ^ 46 := by
    apply one_div_le_one_div_of_le (by positivity)
    exact pow_le_pow_right₀ (by norm_num) hQ46
  have hrw : (Float64.significand n d (-(Q : Int)) : ℚ) * (1 / 2 ^ Q) - (n : ℚ) / d =
      ((Float64.significand n d (-(Q : Int)) : ℚ) - (n : ℚ) * 2 ^ Q / d) * (1 / 2 ^ Q) := by
    field_simp
    ring
  rw [hpow, hrw, abs_mul, abs_of_pos (by positivity : (0 : ℚ) < 1 / 2 ^ Q)]
  calc |(Float64.significand n d (-(Q : Int)) : ℚ) - (n : ℚ) * 2 ^ Q / d| * (1 / 2 ^ Q)
      ≤ 1 * (1 / 2 ^ Q) := by
        apply mul_le_mul_of_nonneg_right hnear (by positivity)
    _ ≤ 1 / 2 ^ 46 := by rw [one_mul]; exact hle

theorem Float64.ofUint64_exact (k : Nat) (hk : k < 2 ^ 53) :
    ∃ m e, Float64.ofUint64 k = .finite false m e ∧ (m : ℚ) * 2 ^ e = k := by
  rcases Nat.eq_zero_or_pos k with h0 | hpos
  · subst h0
    exact ⟨0, -1074, rfl, by simp⟩
  · have hexp : Float64.exponent k 1 < ((53 : Nat) : Int) :=
      Float64.exponent_lt k 1 53 hpos (by decide) (by omega)
    simp only [Nat.cast_ofNat] at hexp
    obtain ⟨m, e, hr, _, hval⟩ := Float64.round_eq false k 1 hpos (by decide) (by omega)
    refine ⟨m, e, hr, ?_⟩
    obtain ⟨Q, hQ⟩ : ∃ Q : Nat, max (Float64.exponent k 1 - 52) (-1074) = -(Q : Int) :=
      ⟨(-(max (Float64.exponent k 1 - 52) (-1074))).toNat, by omega⟩
    rw [hval, hQ]
    have hs : Float64.significand k 1 (-(Q : Int)) = k * 2 ^ Q := by
      unfold Float64.significand
      simp [Nat.mod_one]
    rw [hs, zpow_neg, zpow_natCast]
    push_cast
    field_simp

theorem Float64.zpow_toNat_div (z : Int) :
    ((2 ^ z.toNat : Nat) : ℚ) / ((2 ^ (-z).toNat : Nat) : ℚ) = 2 ^ z := by
  rcases le_total 0 z with h | h
  · obtain ⟨a, rfl⟩ := Int.eq_ofNat_of_zero_le h
    simp
  · obtain ⟨a, ha⟩ := Int.eq_ofNat_of_zero_le (neg_nonneg.mpr h)
    have hz : z = -(a : Int) := by omega
    subst hz
    simp [zpow_neg]

theorem Float64.div_ratio (m m2 : Nat) (e e2 : Int) :
    ((m * 2 ^ (e - e2).toNat : Nat) : ℚ) / ((m2 * 2 ^ (e2 - e).toNat : Nat) : ℚ) =
      (m : ℚ) * 2 ^ e / ((m2 : ℚ) * 2 ^ e2) := by
  have h := Float64.zpow_toNat_div (e - e2)
  rw [neg_sub] at h
  push_cast at h ⊢
  rw [mul_div_mul_comm, h, zpow_sub₀ (by norm_num : (2 : ℚ) ≠ 0)]
  rw [mul_div_mul_comm]

theorem Float64.outcome_near (k : Nat) (hk : k < 10000) :
    ∃ m e, Float64.div (Float64.ofUint64 k) (Float64.const 100 1) = .finite false m e ∧
      e ≤ -45 ∧ |(m : ℚ) * 2 ^ e - (k : ℚ) / 100| ≤ 1 / 2 ^ 46 := by
  have hhund : Float64.const 100 1 = .finite false 7036874417766400 (-46) := by decide!
  have hM : ((7036874417766400 : Nat) : ℚ) * 2 ^ (-46 : Int) = 100 := by
    rw [zpow_neg]
    norm_num
  obtain ⟨m, e, hof, hval⟩ := Float64.ofUint64_exact k (by omega)
  rw [hof, hhund]
  simp only [Float64.div]
  rw [if_neg (by decide)]
  have hratio := Float64.div_ratio m 7036874417766400 e (-46)
  rw [hval, hM] at hratio
  simp only [Bool.xor_false]
  rcases Nat.eq_zero_or_pos k with h0 | hpos
  · subst h0
    have hm : m = 0 := by
      have h2 : (2 : ℚ) ^ e ≠ 0 := zpow_ne_zero _ (by norm_num)
      have : (m : ℚ) = 0 := by
        simp only [Nat.cast_zero] at hval
        rcases mul_eq_zero.mp hval with h | h
        · exact h
        · exact absurd h h2
      exact_mod_cast this
    subst hm
    refine ⟨0, -1074, by simp [Float64.round], by omega, by simp⟩
  · have hmpos : 0 < m := by
      rcases Nat.eq_zero_or_pos m with h | h
      · subst h
        simp only [Nat.cast_zero, zero_mul] at hval
        have : (k : ℚ) = 0 := hval.symm
        have : k = 0 := by exact_mod_cast this
        omega
      · exact h
    have hn : 0 < m * 2 ^ (e - -46).toNat := Nat.mul_pos hmpos (Nat.pos_pow_of_pos _ (by decide))
    have hd : 0 < 7036874417766400 * 2 ^ (-46 - e).toNat :=
      Nat.mul_pos (by decide) (Nat.pos_pow_of_pos _ (by decide))
    have hdq : (0 : ℚ) < ((7036874417766400 * 2 ^ (-46 - e).toNat : Nat) : ℚ) := by
      exact_mod_cast hd
    have hlt : m * 2 ^ (e - -46).toNat < 100 * (7036874417766400 * 2 ^ (-46 - e).toNat) := by
      have h1 : ((m * 2 ^ (e - -46).toNat : Nat) : ℚ) /
          ((7036874417766400 * 2 ^ (-46 - e).toNat : Nat) : ℚ) < 100 := by
        rw [hratio]
        have : (k : ℚ) < 10000 := by exact_mod_cast hk
        linarith
      rw [div_lt_iff₀ hdq] at h1
      exact_mod_cast h1
    obtain ⟨m', e', hr, he', hnear⟩ := Float64.round_near _ _ hn hd hlt
    rw [hratio] at hnear
    exact ⟨m', e', hr, he', hnear⟩

theorem Float64.scaled_cast (m : Nat) (e c : Int) (hc : c ≤ e) :
    ((Float64.scaled false m e c : Int) : ℚ) = (m : ℚ) * 2 ^ e / 2 ^ c := by
  obtain ⟨a, ha⟩ := Int.eq_ofNat_of_zero_le (sub_nonneg.mpr hc)
  simp only [Float64.scaled, Bool.false_eq_true, if_false, ha, Int.toNat_ofNat]
  have he : e = c + a := by omega
  subst he
  rw [zpow_add₀ (by norm_num : (2 : ℚ) ≠ 0), zpow_natCast]
  push_cast
  have h2 : (2 : ℚ) ^ c ≠ 0 := zpow_ne_zero _ (by norm_num)
  field_simp
  ring

theorem Float64.lt_iff (m m2 : Nat) (e e2 : Int) :
    Float64.lt (.finite false m e) (.finite false m2 e2) = true ↔
      (m : ℚ) * 2 ^ e < (m2 : ℚ) * 2 ^ e2 := by
  simp only [Float64.lt, decide_eq_true_eq]
  rw [← Int.cast_lt (R := ℚ), Float64.scaled_cast m e _ (min_le_left e e2),
    Float64.scaled_cast m2 e2 _ (min_le_right e e2)]
  exact div_lt_div_iff_of_pos_right (zpow_pos (by norm_num) _)

theorem Float64.le_iff (m m2 : Nat) (e e2 : Int) :
    Float64.le (.finite false m e) (.finite false m2 e2) = true ↔
      (m : ℚ) * 2 ^ e ≤ (m2 : ℚ) * 2 ^ e2 := by
  simp only [Float64.le, decide_eq_true_eq]
  rw [← Int.cast_le (R := ℚ), Float64.scaled_cast m e _ (min_le_left e e2),
    Float64.scaled_cast m2 e2 _ (min_le_right e e2)]
  exact div_le_div_iff_of_pos_right (zpow_pos (by norm_num) _)

/-! ## The outcome as a `float64` -/

theorem Float64.outcome_bounds (k : Nat) (hk : k < 10000) :
    Float64.le Float64.zero (Float64.div (Float64.ofUint64 k) (Float64.const 100 1)) = true ∧
      Float64.lt (Float64.div (Float64.ofUint64 k) (Float64.const 100 1))
        (Float64.const 100 1) = true ∧
      |Float64.toRat (Float64.div (Float64.ofUint64 k) (Float64.const 100 1)) - (k : ℚ) / 100| ≤
        1 / 2 ^ 46 := by
  obtain ⟨m, e, ho, _, hnear⟩ := Float64.outcome_near k hk
  have hM : ((7036874417766400 : Nat) : ℚ) * 2 ^ (-46 : Int) = 100 := by
    rw [zpow_neg]
    norm_num
  have hkq : (k : ℚ) ≤ 9999 := by exact_mod_cast (by omega : k ≤ 9999)
  rw [ho, Float64.hundred_eq, Float64.zero, Float64.le_iff, Float64.lt_iff, hM]
  simp only [Float64.toRat, Bool.false_eq_true, if_false, one_mul]
  refine ⟨?_, ?_, hnear⟩
  · simp only [Nat.cast_zero, zero_mul]
    positivity
  · have h := (abs_le.mp hnear).2
    have h46 : (1 : ℚ) / 2 ^ 46 < 1 / 100 := by norm_num
    linarith

theorem Float64.outcome_injective {a b : Nat} (ha : a < 10000) (hb : b < 10000)
    (h : Float64.div (Float64.ofUint64 a) (Float64.const 100 1) =
      Float64.div (Float64.ofUint64 b) (Float64.const 100 1)) : a = b := by
  have h1 := (Float64.outcome_bounds a ha).2.2
  have h2 := (Float64.outcome_bounds b hb).2.2
  rw [h] at h1
  have h1' := abs_le.mp h1
  have h2' := abs_le.mp h2
  have h46 : (1 : ℚ) / 2 ^ 46 < 1 / 200 := by norm_num
  have hlt1 : (a : ℚ) < b + 1 := by linarith [h1'.1, h1'.2, h2'.1, h2'.2]
  have hlt2 : (b : ℚ) < a + 1 := by linarith [h1'.1, h1'.2, h2'.1, h2'.2]
  have h3 : a < b + 1 := by exact_mod_cast hlt1
  have h4 : b < a + 1 := by exact_mod_cast hlt2
  omega

/-- C9, as the code has it: an outcome that `Calculate` or `Roll` returns without error is
`float64(k) / 100` for an integer `k` with `0 ≤ k ≤ 9999`; it satisfies `0 <= outcome` and
`outcome < 100`, so 100 is never produced; and it is within `2 ^ -46` of the two-decimal
number `k / 100`, which makes `k` the integer nearest to 100 times the outcome. -/
theorem C9_outcome_bounds (H : Hashes) (g : Game) (hok : (Calculate H g).2 = none) :
    (Roll H g).1 = Calculate H g ∧
      ∃ k, k ≤ 9999 ∧
        (Calculate H g).1 = Float64.div (Float64.ofUint64 k) (Float64.const 100 1) ∧
        Float64.le Float64.zero (Calculate H g).1 = true ∧
        Float64.lt (Calculate H g).1 (Float64.const 100 1) = true ∧
        |Float64.toRat (Calculate H g).1 - (k : ℚ) / 100| ≤ 1 / 2 ^ 46 := by
  refine ⟨Roll_fst H g, ?_⟩
  rw [Calculate_eq] at hok ⊢
  cases hsel : Spec.selectedValue (CalculateHMAC H g) with
  | none => rw [hsel] at hok; simp at hok
  | some v =>
    have hk : v % 10000 < 10000 := Nat.mod_lt _ (by decide)
    obtain ⟨h1, h2, h3⟩ := Float64.outcome_bounds (v % 10000) hk
    exact ⟨v % 10000, by omega, rfl, h1, h2, h3⟩

set_option maxRecDepth 100000 in
/-- C9 on the example game, whose outcome is 79.69. -/
theorem C9_outcome_bounds_witness :
    (Calculate goStd ExampleGame).2 = none ∧
      ((Roll goStd ExampleGame).1 = Calculate goStd ExampleGame ∧
        ∃ k, k ≤ 9999 ∧
          (Calculate goStd ExampleGame).1 =
            Float64.div (Float64.ofUint64 k) (Float64.const 100 1) ∧
          Float64.le Float64.zero (Calculate goStd ExampleGame).1 = true ∧
          Float64.lt (Calculate goStd ExampleGame).1 (Float64.const 100 1) = true ∧
          |Float64.toRat (Calculate goStd ExampleGame).1 - (k : ℚ) / 100| ≤ 1 / 2 ^ 46) :=
  ⟨by decide!, C9_outcome_bounds goStd ExampleGame (by decide!)⟩

set_option maxRecDepth 100000 in
/-- C9 fails in its last part: at nonce 12 the example game calculates 73.79 without
error, and the `float64` product of that outcome and 100 is `8113296301359105 * 2 ^ -40`,
which is 7379.000000000001 and not an integer. -/
theorem C9_counterexample :
    Calculate goStd { ExampleGame with Nonce := 12 } = (Float64.const 7379 100, none) ∧
      Float64.mul (Float64.const 7379 100) (Float64.const 100 1) =
        .finite false 8113296301359105 (-40) ∧
      Float64.isInt (Float64.mul (Float64.const 7379 100) (Float64.const 100 1)) = false ∧
      Float64.eq (Float64.mul (Float64.const 7379 100) (Float64.const 100 1))
        (Float64.ofUint64 7379) = false := by
  decide!

/-- C20: the window values the threshold accepts are those of `0 ≤ v ≤ 999999`, and for
every `k` with `0 ≤ k ≤ 9999` exactly 100 of them have `v mod 10000 = k`; they are the 100
window values on which `Calculate` ends with the outcome `float64(k) / 100`, so every
outcome has the same number of accepted preimages. -/
theorem C20_no_modulo_bias (k : Nat) (hk : k ≤ 9999) :
    ((Finset.range 1000000).filter fun v => v % 10000 = k).card = 100 ∧
      ((Finset.range (2 ^ 20)).filter fun v =>
        Calculate.result v =
          (Float64.div (Float64.ofUint64 k) (Float64.const 100 1), none)).card = 100 := by
  have hcount : ((Finset.range 1000000).filter fun v => v % 10000 = k).card = 100 := by
    have h := Nat.count_modEq_card 1000000 (by decide : 0 < 10000) k
    rw [Nat.count_eq_card_filter_range] at h
    have hk' : k % 10000 = k := Nat.mod_eq_of_lt (by omega)
    simp only [Nat.ModEq, hk'] at h
    rw [h]
    simp
  refine ⟨hcount, ?_⟩
  have hset : ((Finset.range (2 ^ 20)).filter fun v =>
      Calculate.result v =
        (Float64.div (Float64.ofUint64 k) (Float64.const 100 1), none)) =
      (Finset.range 1000000).filter fun v => v % 10000 = k := by
    ext v
    simp only [Finset.mem_filter, Finset.mem_range, Calculate.result]
    constructor
    · rintro ⟨_, hres⟩
      by_cases hv : 999999 < v
      · rw [if_pos hv] at hres
        simp at hres
      · rw [if_neg hv] at hres
        simp only [Prod.mk.injEq, and_true] at hres
        exact ⟨by omega, Float64.outcome_injective (Nat.mod_lt _ (by decide)) (by omega) hres⟩
    · rintro ⟨hv, hmod⟩
      refine ⟨by omega, ?_⟩
      rw [if_neg (by omega), hmod]
  rw [hset, hcount]

/-- C20 at `k = 5540`, the outcome 55.4. -/
theorem C20_no_modulo_bias_witness :
    5540 ≤ 9999 ∧
      (((Finset.range 1000000).filter fun v => v % 10000 = 5540).card = 100 ∧
        ((Finset.range (2 ^ 20)).filter fun v =>
          Calculate.result v =
            (Float64.div (Float64.ofUint64 5540) (Float64.const 100 1), none)).card = 100) :=
  ⟨by decide, C20_no_modulo_bias 5540 (by decide)⟩

/-! ## The memory a call leaves

What a definition of `Mem` returns is what the definition over `Slice` returns on the bytes
that the slices hold when the call starts (`Mem.Calculate_fst`, `Mem.Roll_returns`,
`Mem.NewGame_view`, `Mem.Verfiy_fst`). A call leaves the bytes of a slice as they are when
that slice has no byte in the spare capacity of `ClientSeed` (`Mem.message_frame`), and it
leaves all memory as it is when `ClientSeed` has no spare capacity (`Mem.Calculate_of_full`).
On a game whose seeds are separate in this sense, successive rolls are those of the bytes
of the creation (`Mem.Rolls_separate`). -/

theorem Mem.load_len {m : Mem.Heap} {s : Mem.Header} (hs : s.Valid m) :
    (Mem.load m s).len = s.len := by
  cases s with
  | nil => rfl
  | mk p l c =>
    obtain ⟨hlc, hpc⟩ := hs
    simp only [Mem.load, Slice.len, Slice.bytes, Mem.Header.len, List.length_take,
      List.length_drop]
    omega

theorem Mem.load_isNil (m : Mem.Heap) (s : Mem.Header) : (Mem.load m s).isNil = s.isNil := by
  cases s <;> rfl

theorem Mem.load_alloc (m : Mem.Heap) (bs : List UInt8) :
    Mem.load (Mem.alloc m bs).1 (Mem.alloc m bs).2 = .mk bs := by
  simp [Mem.alloc, Mem.load]

theorem Mem.load_alloc_of_valid {m : Mem.Heap} {s : Mem.Header} (hs : s.Valid m)
    (bs : List UInt8) : Mem.load (Mem.alloc m bs).1 s = Mem.load m s := by
  cases s with
  | nil => rfl
  | mk p l c =>
    obtain ⟨hlc, hpc⟩ := hs
    simp only [Mem.load, Mem.alloc, Slice.mk.injEq]
    rw [List.drop_append_of_le_length (by omega),
      List.take_append_of_le_length (by rw [List.length_drop]; omega)]

theorem Mem.length_store {m : Mem.Heap} {p : Nat} {bs : List UInt8}
    (h : p + bs.length ≤ m.length) : (Mem.store m p bs).length = m.length := by
  simp only [Mem.store, List.length_append, List.length_take, List.length_drop]
  omega

theorem Mem.append_nil (m : Mem.Heap) (elems : List UInt8) :
    Mem.append m .nil elems = if elems.length = 0 then (m, .nil) else Mem.alloc m elems :=
  rfl

theorem Mem.append_mk (m : Mem.Heap) (p l c : Nat) (elems : List UInt8) :
    Mem.append m (.mk p l c) elems =
      if l + elems.length ≤ c then (Mem.store m (p + l) elems, .mk p (l + elems.length) c)
      else Mem.alloc m ((m.drop p).take l ++ elems) :=
  rfl

theorem Mem.load_store_behind {m : Mem.Heap} {p l : Nat} (elems : List UInt8)
    (h : p + l ≤ m.length) :
    ((Mem.store m (p + l) elems).drop p).take (l + elems.length) =
      (m.drop p).take l ++ elems := by
  have hlen : ((m.drop p).take l).length = l := by
    rw [List.length_take, List.length_drop]; omega
  have hsplit : m.take (p + l) = m.take p ++ (m.drop p).take l := List.take_add m p l
  simp only [Mem.store]
  rw [hsplit, List.append_assoc, List.append_assoc,
    List.drop_append_of_le_length (by rw [List.length_take]; omega),
    List.drop_of_length_le (by rw [List.length_take]; omega), List.nil_append,
    ← List.append_assoc, List.take_append_of_le_length (by
      rw [List.length_append, hlen]),
    List.take_of_length_le (by rw [List.length_append, hlen])]

theorem Mem.load_append {m : Mem.Heap} {s : Mem.Header} (hs : s.Valid m) (elems : List UInt8) :
    (Mem.load (Mem.append m s elems).1 (Mem.append m s elems).2).bytes =
      (Mem.load m s).bytes ++ elems := by
  cases s with
  | nil =>
    rw [Mem.append_nil]
    split_ifs with h
    · simp [Mem.load, Slice.bytes, List.length_eq_zero.mp h]
    · rw [Mem.load_alloc]; rfl
  | mk p l c =>
    obtain ⟨hlc, hpc⟩ := hs
    rw [Mem.append_mk]
    split_ifs with h
    · simp only [Mem.load, Slice.bytes]
      exact Mem.load_store_behind elems (by omega)
    · rw [Mem.load_alloc]; rfl

theorem Mem.append_valid {m : Mem.Heap} {s : Mem.Header} (hs : s.Valid m) (elems : List UInt8) :
    (Mem.append m s elems).2.Valid (Mem.append m s elems).1 := by
  cases s with
  | nil =>
    rw [Mem.append_nil]
    split_ifs with h
    · trivial
    · simp [Mem.alloc, Mem.Header.Valid]
  | mk p l c =>
    obtain ⟨hlc, hpc⟩ := hs
    rw [Mem.append_mk]
    split_ifs with h
    · exact ⟨h, by rw [Mem.length_store (by omega)]; exact hpc⟩
    · simp [Mem.alloc, Mem.Header.Valid]

theorem Mem.message_bytes {g : Mem.Game} {m : Mem.Heap} (hc : g.ClientSeed.Valid m) :
    (Mem.load (Mem.CalculateHMAC.message g m).1 (Mem.CalculateHMAC.message g m).2).bytes =
      (Mem.load m g.ClientSeed).bytes ++ [45] ++ FormatUint g.Nonce := by
  unfold Mem.CalculateHMAC.message
  rw [Mem.load_append (Mem.append_valid hc [45]), Mem.load_append hc]

theorem Mem.CalculateHMAC_fst (H : Hashes) {g : Mem.Game} {m : Mem.Heap}
    (hc : g.ClientSeed.Valid m) :
    (Mem.CalculateHMAC H g m).1 = Dice.CalculateHMAC H (g.view m) := by
  simp only [Mem.CalculateHMAC, Dice.CalculateHMAC, Mem.Game.view, Mem.message_bytes hc]

theorem Mem.Calculate_fst (H : Hashes) {g : Mem.Game} {m : Mem.Heap}
    (hc : g.ClientSeed.Valid m) :
    (Mem.Calculate H g m).1 = Dice.Calculate H (g.view m) := by
  simp only [Mem.Calculate, Dice.Calculate, Mem.CalculateHMAC_fst H hc]
  cases Dice.Calculate.scan (Dice.CalculateHMAC H (g.view m))
      ((Dice.CalculateHMAC H (g.view m)).length - 5) 0 0 <;>
    rfl

theorem Mem.Calculate_snd (H : Hashes) (g : Mem.Game) (m : Mem.Heap) :
    (Mem.Calculate H g m).2 = (Mem.CalculateHMAC.message g m).1 := by
  simp only [Mem.Calculate, Mem.CalculateHMAC]
  split <;> rfl

theorem Mem.Roll_returns (H : Hashes) {g : Mem.Game} {m : Mem.Heap}
    (hc : g.ClientSeed.Valid m) :
    (Mem.Roll H g m).1 = (Dice.Roll H (g.view m)).1 ∧
      (Mem.Roll H g m).2.1.Nonce = (Dice.Roll H (g.view m)).2.Nonce ∧
      (Mem.Roll H g m).2.1.ClientSeed = g.ClientSeed ∧
      (Mem.Roll H g m).2.1.ServerSeed = g.ServerSeed ∧
      (Mem.Roll H g m).2.1.BlindedServerSeed = g.BlindedServerSeed ∧
      (Mem.Roll H g m).2.2 = (Mem.CalculateHMAC.message g m).1 := by
  have h1 := Mem.Calculate_fst H hc
  have h2 := Mem.Calculate_snd H g m
  rcases hm : Mem.Calculate H g m with ⟨⟨roll, _ | e⟩, m'⟩ <;>
    rw [hm] at h1 h2 <;> simp only at h1 h2 <;>
    simp only [Mem.Roll, Dice.Roll, hm, ← h1, h2] <;> simp [Mem.Game.view]

theorem Mem.valid_alloc {m : Mem.Heap} {s : Mem.Header} (hs : s.Valid m) (bs : List UInt8) :
    s.Valid (Mem.alloc m bs).1 := by
  cases s with
  | nil => trivial
  | mk p l c =>
    obtain ⟨hlc, hpc⟩ := hs
    exact ⟨hlc, by simp only [Mem.alloc, List.length_append]; omega⟩

theorem Mem.alloc_valid (m : Mem.Heap) (bs : List UInt8) :
    (Mem.alloc m bs).2.Valid (Mem.alloc m bs).1 := by
  simp [Mem.alloc, Mem.Header.Valid]

theorem Mem.alloc_clear {m : Mem.Heap} {s : Mem.Header} (hs : s.Valid m) (bs : List UInt8) :
    s.Clear (Mem.alloc m bs).2 := by
  cases s with
  | nil => trivial
  | mk p l c =>
    obtain ⟨hlc, hpc⟩ := hs
    exact Or.inr (Or.inr hpc)

theorem Mem.load_store_of_clear {m : Mem.Heap} {a q n : Nat} {bs : List UInt8}
    (ha : a + bs.length ≤ m.length) (h : n = 0 ∨ q + n ≤ a ∨ a + bs.length ≤ q) :
    ((Mem.store m a bs).drop q).take n = (m.drop q).take n := by
  apply List.ext_getElem?
  intro i
  simp only [Mem.store, List.getElem?_take, List.getElem?_drop]
  split_ifs with hi
  · rcases h with h | h | h
    · omega
    · rw [List.append_assoc, List.getElem?_append_left (by rw [List.length_take]; omega),
        List.getElem?_take, if_pos (by omega)]
    · rw [List.getElem?_append_right (by
          rw [List.length_append, List.length_take]; omega),
        List.getElem?_drop, List.length_append, List.length_take]
      congr 1
      omega
  · rfl

theorem Mem.clear_self (s : Mem.Header) : s.Clear s := by
  cases s with
  | nil => trivial
  | mk p l c => exact Or.inr (Or.inl (Nat.le_refl _))

theorem Mem.append_frame {m : Mem.Heap} {s r : Mem.Header} (hs : s.Valid m) (hr : r.Valid m)
    (hc : s.Clear r) (elems : List UInt8) :
    Mem.load (Mem.append m s elems).1 r = Mem.load m r ∧
      r.Valid (Mem.append m s elems).1 ∧ (Mem.append m s elems).2.Clear r := by
  cases s with
  | nil =>
    rw [Mem.append_nil]
    split_ifs with h
    · exact ⟨rfl, hr, trivial⟩
    · refine ⟨Mem.load_alloc_of_valid hr elems, Mem.valid_alloc hr elems, ?_⟩
      cases r with
      | nil => trivial
      | mk q n c2 =>
        obtain ⟨h1, h2⟩ := hr
        exact Or.inr (Or.inl (by omega))
  | mk p l c =>
    obtain ⟨hlc, hpc⟩ := hs
    rw [Mem.append_mk]
    split_ifs with h
    · cases r with
      | nil => exact ⟨rfl, trivial, trivial⟩
      | mk q n c2 =>
        obtain ⟨h1, h2⟩ := hr
        have hc2 : n = 0 ∨ q + n ≤ p + l ∨ p + c ≤ q := hc
        refine ⟨?_, ⟨h1, by rw [Mem.length_store (by omega)]; exact h2⟩, ?_⟩
        · simp only [Mem.load, Slice.mk.injEq]
          exact Mem.load_store_of_clear (by omega) (by omega)
        · show n = 0 ∨ q + n ≤ p + (l + elems.length) ∨ p + c ≤ q
          omega
    · refine ⟨Mem.load_alloc_of_valid hr _, Mem.valid_alloc hr _, ?_⟩
      cases r with
      | nil => trivial
      | mk q n c2 =>
        obtain ⟨h1, h2⟩ := hr
        exact Or.inr (Or.inl (by omega))

theorem Mem.message_frame {g : Mem.Game} {m : Mem.Heap} {r : Mem.Header}
    (hs : g.ClientSeed.Valid m) (hr : r.Valid m) (hc : g.ClientSeed.Clear r) :
    Mem.load (Mem.CalculateHMAC.message g m).1 r = Mem.load m r ∧
      r.Valid (Mem.CalculateHMAC.message g m).1 := by
  obtain ⟨h1, h2, h3⟩ := Mem.append_frame hs hr hc [45]
  obtain ⟨h4, h5, _⟩ :=
    Mem.append_frame (Mem.append_valid hs [45]) h2 h3 (FormatUint g.Nonce)
  exact ⟨h4.trans h1, h5⟩

theorem Mem.message_separate {g : Mem.Game} {m : Mem.Heap} (h : g.Separate m) :
    g.view (Mem.CalculateHMAC.message g m).1 = g.view m ∧
      g.Separate (Mem.CalculateHMAC.message g m).1 := by
  obtain ⟨hc, hs, hb, hcs, hcb⟩ := h
  obtain ⟨c1, c2⟩ := Mem.message_frame hc hc (Mem.clear_self _)
  obtain ⟨s1, s2⟩ := Mem.message_frame hc hs hcs
  obtain ⟨b1, b2⟩ := Mem.message_frame hc hb hcb
  exact ⟨by simp only [Mem.Game.view, c1, s1, b1], c2, s2, b2, hcs, hcb⟩

theorem Mem.Calculate_separate (H : Hashes) {g : Mem.Game} {m : Mem.Heap} (h : g.Separate m) :
    (Mem.Calculate H g m).1 = Dice.Calculate H (g.view m) ∧
      g.view (Mem.Calculate H g m).2 = g.view m ∧ g.Separate (Mem.Calculate H g m).2 := by
  rw [Mem.Calculate_snd]
  exact ⟨Mem.Calculate_fst H h.1, Mem.message_separate h⟩

theorem Mem.Roll_separate (H : Hashes) {g : Mem.Game} {m : Mem.Heap} (h : g.Separate m) :
    (Mem.Roll H g m).1 = (Dice.Roll H (g.view m)).1 ∧
      (Mem.Roll H g m).2.1.view (Mem.Roll H g m).2.2 = (Dice.Roll H (g.view m)).2 ∧
      (Mem.Roll H g m).2.1.Separate (Mem.Roll H g m).2.2 := by
  obtain ⟨h1, h2, h3⟩ := Mem.Calculate_separate H h
  rcases hm : Mem.Calculate H g m with ⟨⟨roll, _ | e⟩, m'⟩ <;>
    rw [hm] at h1 h2 h3 <;> simp only at h1 h2 h3 <;>
    simp only [Mem.Roll, Dice.Roll, hm, ← h1]
  · refine ⟨trivial, ?_, h3⟩
    rw [← h2]
    rfl
  · exact ⟨trivial, h2, h3⟩

theorem Mem.Rolls_separate (H : Hashes) :
    ∀ (k : Nat) (g : Mem.Game) (m : Mem.Heap), g.Separate m →
      (Mem.Rolls H k g m).1 = (Dice.Rolls H k (g.view m)).1 ∧
        (Mem.Rolls H k g m).2.1.view (Mem.Rolls H k g m).2.2 = (Dice.Rolls H k (g.view m)).2 ∧
        (Mem.Rolls H k g m).2.1.Separate (Mem.Rolls H k g m).2.2 := by
  intro k
  induction k with
  | zero => intro g m h; exact ⟨rfl, rfl, h⟩
  | succ k ih =>
    intro g m h
    obtain ⟨h1, h2, h3⟩ := Mem.Roll_separate H h
    obtain ⟨i1, i2, i3⟩ := ih _ _ h3
    simp only [Mem.Rolls, Dice.Rolls]
    rw [h2] at i1 i2
    exact ⟨by rw [h1, i1], i2, i3⟩

theorem Mem.make_view (H : Hashes) {clientSeed serverSeed : Mem.Header} {m : Mem.Heap}
    (hc : clientSeed.Valid m) (hs : serverSeed.Valid m) :
    (Mem.NewGame.make H clientSeed serverSeed m).1.view
        (Mem.NewGame.make H clientSeed serverSeed m).2 =
      ⟨Mem.load m clientSeed, Mem.load m serverSeed,
        .mk (H.sha256 (Mem.load m serverSeed).bytes).val, 0⟩ ∧
      (Mem.NewGame.make H clientSeed serverSeed m).1.ClientSeed.Valid
        (Mem.NewGame.make H clientSeed serverSeed m).2 ∧
      (clientSeed.Clear serverSeed →
        (Mem.NewGame.make H clientSeed serverSeed m).1.Separate
          (Mem.NewGame.make H clientSeed serverSeed m).2) := by
  simp only [Mem.NewGame.make, Mem.Game.view, Mem.Game.Separate]
  exact ⟨by rw [Mem.load_alloc_of_valid hc, Mem.load_alloc_of_valid hs, Mem.load_alloc],
    Mem.valid_alloc hc _, fun hcl =>
      ⟨Mem.valid_alloc hc _, Mem.valid_alloc hs _, Mem.alloc_valid _ _, hcl,
        Mem.alloc_clear hc _⟩⟩

theorem Mem.NewGame_view (H : Hashes) {clientSeed serverSeed : Mem.Header} (rng : RandSource)
    {m : Mem.Heap} (hc : clientSeed.Valid m) (hs : serverSeed.Valid m) :
    ((Mem.NewGame H clientSeed serverSeed rng m).1.1.map fun g =>
          g.view (Mem.NewGame H clientSeed serverSeed rng m).2.2) =
        (Dice.NewGame H (Mem.load m clientSeed) (Mem.load m serverSeed) rng).1.1 ∧
      (Mem.NewGame H clientSeed serverSeed rng m).1.2 =
        (Dice.NewGame H (Mem.load m clientSeed) (Mem.load m serverSeed) rng).1.2 ∧
      (Mem.NewGame H clientSeed serverSeed rng m).2.1 =
        (Dice.NewGame H (Mem.load m clientSeed) (Mem.load m serverSeed) rng).2 ∧
      ∀ g, (Mem.NewGame H clientSeed serverSeed rng m).1.1 = some g →
        g.ClientSeed.Valid (Mem.NewGame H clientSeed serverSeed rng m).2.2 ∧
          (clientSeed.Clear serverSeed →
            g.Separate (Mem.NewGame H clientSeed serverSeed rng m).2.2) := by
  simp only [Mem.NewGame, Dice.NewGame, Mem.load_isNil, Mem.load_len hc, Mem.load_len hs]
  by_cases h1 : (clientSeed.isNil || clientSeed.len == 0) = true
  · simp [h1]
  · by_cases h2 : (serverSeed.isNil || serverSeed.len == 0) = true
    · simp only [h1, h2, if_true, Bool.false_eq_true, if_false, Mem.newServerSeed,
        Dice.newServerSeed]
      rcases hr : rng.Read 32 with ⟨⟨seed, _ | e⟩, rng'⟩
      · simp only [Option.map_some']
        obtain ⟨v, c, s⟩ := Mem.make_view H (Mem.valid_alloc hc seed) (Mem.alloc_valid m seed)
        rw [Mem.load_alloc_of_valid hc, Mem.load_alloc] at v
        refine ⟨by rw [v], trivial, trivial, ?_⟩
        intro g hg
        simp only [Option.some.injEq] at hg
        rw [← hg]
        exact ⟨c, fun _ => s (Mem.alloc_clear hc seed)⟩
      · simp
    · simp only [h1, h2, Bool.false_eq_true, if_false, Option.map_some']
      obtain ⟨v, c, s⟩ := Mem.make_view H hc hs
      refine ⟨by rw [v], trivial, trivial, ?_⟩
      intro g hg
      simp only [Option.some.injEq] at hg
      rw [← hg]
      exact ⟨c, s⟩

theorem Mem.Verfiy_fst (H : Hashes) {clientSeed serverSeed : Mem.Header} (nonce : Nat)
    (randNum : Float64) (rng : RandSource) {m : Mem.Heap} (hc : clientSeed.Valid m)
    (hs : serverSeed.Valid m) :
    (Mem.Verfiy H clientSeed serverSeed nonce randNum rng m).1 =
        (Dice.Verfiy H (Mem.load m clientSeed) (Mem.load m serverSeed) nonce randNum rng).1 ∧
      (Mem.Verfiy H clientSeed serverSeed nonce randNum rng m).2.1 =
        (Dice.Verfiy H (Mem.load m clientSeed) (Mem.load m serverSeed) nonce randNum rng).2 := by
  obtain ⟨h1, h2, h3, h4⟩ := Mem.NewGame_view H rng hc hs
  simp only [Mem.Verfiy, Dice.Verfiy, Dice.Verfiy.game]
  rcases hn : Mem.NewGame H clientSeed serverSeed rng m with ⟨⟨_ | g, e⟩, rng', m'⟩
  · rw [hn] at h1 h3
    rcases hv : Dice.NewGame H (Mem.load m clientSeed) (Mem.load m serverSeed) rng with
      ⟨⟨_ | g', e'⟩, rng''⟩
    · rw [hv] at h3
      exact ⟨rfl, h3⟩
    · rw [hv] at h1
      simp at h1
  · rw [hn] at h1 h3 h4
    rcases hv : Dice.NewGame H (Mem.load m clientSeed) (Mem.load m serverSeed) rng with
      ⟨⟨_ | g', e'⟩, rng''⟩
    · rw [hv] at h1
      simp at h1
    · rw [hv] at h1 h3
      simp only [Option.map_some', Option.some.injEq] at h1 h3
      have hval : Mem.Header.Valid m' (Mem.Game.ClientSeed { g with Nonce := nonce }) :=
        (h4 g rfl).1
      have hcalc := Mem.Calculate_fst H hval
      have hview : Mem.Game.view m' { g with Nonce := nonce } = { g' with Nonce := nonce } := by
        rw [← h1]
        rfl
      rw [hview] at hcalc
      simp only
      rcases hm : Mem.Calculate H { g with Nonce := nonce } m' with ⟨⟨roll, _ | err⟩, m''⟩ <;>
        rw [hm] at hcalc <;> simp only at hcalc <;> simp only [← hcalc] <;> exact ⟨trivial, h3⟩

theorem Mem.Calculate_twice_of_separate (H : Hashes) {g : Mem.Game} {m : Mem.Heap}
    (h : g.Separate m) :
    (Mem.Calculate H g (Mem.Calculate H g m).2).1 = (Mem.Calculate H g m).1 := by
  obtain ⟨h1, h2, h3⟩ := Mem.Calculate_separate H h
  rw [(Mem.Calculate_separate H h3).1, h2, h1]

theorem Rolls_seeds (H : Hashes) :
    ∀ (k : Nat) (g : Game), (Rolls H k g).2.ClientSeed = g.ClientSeed ∧
      (Rolls H k g).2.ServerSeed = g.ServerSeed ∧
      (Rolls H k g).2.BlindedServerSeed = g.BlindedServerSeed := by
  intro k
  induction k with
  | zero => intro g; exact ⟨rfl, rfl, rfl⟩
  | succ k ih =>
    intro g
    have hstep : (Roll H g).2.ClientSeed = g.ClientSeed ∧
        (Roll H g).2.ServerSeed = g.ServerSeed ∧
        (Roll H g).2.BlindedServerSeed = g.BlindedServerSeed := by
      rcases hc : Calculate H g with ⟨roll, _ | e⟩ <;> simp [Roll, hc]
    obtain ⟨h1, h2, h3⟩ := ih (Roll H g).2
    simp only [Rolls]
    exact ⟨h1.trans hstep.1, h2.trans hstep.2.1, h3.trans hstep.2.2⟩

theorem Mem.Rolls_seeds_of_separate (H : Hashes) (k : Nat) {g : Mem.Game} {m : Mem.Heap}
    (h : g.Separate m) :
    ((Mem.Rolls H k g m).2.1.view (Mem.Rolls H k g m).2.2).ClientSeed = (g.view m).ClientSeed ∧
      ((Mem.Rolls H k g m).2.1.view (Mem.Rolls H k g m).2.2).ServerSeed =
        (g.view m).ServerSeed ∧
      ((Mem.Rolls H k g m).2.1.view (Mem.Rolls H k g m).2.2).BlindedServerSeed =
        (g.view m).BlindedServerSeed := by
  rw [(Mem.Rolls_separate H k g m h).2.1]
  exact Rolls_seeds H k (g.view m)

theorem Mem.append_of_full {m : Mem.Heap} {s : Mem.Header} (hs : s.cap = s.len)
    (elems : List UInt8) :
    m <+: (Mem.append m s elems).1 ∧
      (Mem.append m s elems).2.cap = (Mem.append m s elems).2.len := by
  cases s with
  | nil =>
    rw [Mem.append_nil]
    split_ifs with h
    · exact ⟨List.prefix_refl m, rfl⟩
    · exact ⟨List.prefix_append m elems, rfl⟩
  | mk p l c =>
    have hcl : c = l := hs
    rw [Mem.append_mk]
    split_ifs with h
    · have he : elems = [] := List.length_eq_zero.mp (by omega)
      subst he
      refine ⟨?_, ?_⟩
      · simp [Mem.store]
      · simpa [Mem.Header.cap, Mem.Header.len] using hcl
    · exact ⟨List.prefix_append m _, rfl⟩

theorem Mem.Calculate_of_full (H : Hashes) {g : Mem.Game} {m : Mem.Heap}
    (h : g.ClientSeed.cap = g.ClientSeed.len) : m <+: (Mem.Calculate H g m).2 := by
  rw [Mem.Calculate_snd]
  obtain ⟨h1, h2⟩ := @Mem.append_of_full m _ h [45]
  exact h1.trans (Mem.append_of_full h2 (FormatUint g.Nonce)).1

/-! ## Seeds that share a backing array

The array `buf` holds `seedKEY!tail` and the game is that of `NewGame(buf[0:4], buf[4:8])`:
the client seed `seed` has capacity 12 and the server seed `KEY!` lies in its spare
capacity, where `CalculateHMAC` writes the separator and the nonce. -/

set_option maxRecDepth 100000 in
/-- C3 on `buf := make([]byte, 12); copy(buf, "seedKEY!tail")` and the game of
`NewGame(buf[0:4], buf[4:8])`, made from the non-empty seeds `seed` and `KEY!`: the second
`Roll` succeeds, reads nonce 1 and returns 94.34, and `Verfiy` at nonce 1 on the claimed
outcome 94.34 returns `(false, nil)`, both on the slices `ClientSeed` and `ServerSeed` of
the game, which hold `seed` and `-1Y!` after that roll, and on the seeds `seed` and `KEY!`
the game was made from. The first `Roll`, which returns 92.59 at nonce 0, is verified on
the seeds the game was made from and not on the two slices as that roll leaves them. -/
theorem C3_roll_not_verified_on_shared_array :
    (Mem.NewGame goStd (sharedBuf.slice 0 4) (sharedBuf.slice 4 8) zeroSource sharedHeap).1 =
        (some sharedGame, none) ∧
      (Mem.Roll goStd sharedGame sharedStart).1 = (Float64.const 9259 100, none) ∧
      (Mem.Roll goStd sharedGame sharedStart).2.1.Nonce = 1 ∧
      (Mem.Roll goStd (Mem.Roll goStd sharedGame sharedStart).2.1
          (Mem.Roll goStd sharedGame sharedStart).2.2).1 = (Float64.const 9434 100, none) ∧
      (sharedGame.view (Mem.Roll goStd (Mem.Roll goStd sharedGame sharedStart).2.1
          (Mem.Roll goStd sharedGame sharedStart).2.2).2.2).ServerSeed =
        .mk (asciiBytes "-1Y!") ∧
      (Mem.Verfiy goStd sharedGame.ClientSeed sharedGame.ServerSeed 1 (Float64.const 9434 100)
          zeroSource (Mem.Roll goStd (Mem.Roll goStd sharedGame sharedStart).2.1
            (Mem.Roll goStd sharedGame sharedStart).2.2).2.2).1 = .returns (false, none) ∧
      (Verfiy goStd (.mk (asciiBytes "seed")) (.mk (asciiBytes "KEY!")) 1
          (Float64.const 9434 100) zeroSource).1 = .returns (false, none) ∧
      (Verfiy goStd (.mk (asciiBytes "seed")) (.mk (asciiBytes "KEY!")) 0
          (Float64.const 9259 100) zeroSource).1 = .returns (true, none) ∧
      (Mem.Verfiy goStd sharedGame.ClientSeed sharedGame.ServerSeed 0 (Float64.const 9259 100)
          zeroSource (Mem.Roll goStd sharedGame sharedStart).2.2).1 = .returns (false, none) := by
  decide!

set_option maxRecDepth 100000 in
/-- C5 on `buf := make([]byte, 12); copy(buf, "seedKEY!tail")` and the fresh game of
`NewGame(buf[0:4], buf[4:8])`: the first `Roll` reads nonce 0, returns 92.59 and leaves
nonce 1; the second `Roll` reads nonce 1, leaves nonce 2 and returns 94.34, keyed with the
`-0Y!` that the first left in `ServerSeed`; `Calculate` for the seeds of the creation,
`seed` and `KEY!`, at nonce 1 gives 89.3. -/
theorem C5_second_roll_on_shared_array :
    (Mem.NewGame goStd (sharedBuf.slice 0 4) (sharedBuf.slice 4 8) zeroSource sharedHeap).1 =
        (some sharedGame, none) ∧
      sharedGame.Nonce = 0 ∧
      (Mem.Roll goStd sharedGame sharedStart).1 = (Float64.const 9259 100, none) ∧
      (Mem.Roll goStd sharedGame sharedStart).2.1 = { sharedGame with Nonce := 1 } ∧
      (Mem.Roll goStd (Mem.Roll goStd sharedGame sharedStart).2.1
          (Mem.Roll goStd sharedGame sharedStart).2.2).1 = (Float64.const 9434 100, none) ∧
      (Mem.Roll goStd (Mem.Roll goStd sharedGame sharedStart).2.1
          (Mem.Roll goStd sharedGame sharedStart).2.2).2.1 = { sharedGame with Nonce := 2 } ∧
      (Mem.Calculate goStd { sharedGame with Nonce := 1 } sharedStart).1 =
        (Float64.const 8930 100, none) ∧
      Calculate goStd ⟨.mk (asciiBytes "seed"), .mk (asciiBytes "KEY!"),
          .mk (goStd.sha256 (asciiBytes "KEY!")).val, 1⟩ = (Float64.const 8930 100, none) ∧
      Float64.eq (Float64.const 9434 100) (Float64.const 8930 100) = false := by
  decide!

set_option maxRecDepth 100000 in
/-- C13 on `buf := make([]byte, 12); copy(buf, "seedKEY!tail")` and the game of
`NewGame(buf[0:4], buf[4:8])`: at creation `ServerSeed` holds `KEY!` and `BlindedServerSeed`
its SHA-256 digest; after one call of `CalculateHMAC`, of `Calculate` or of `Roll`,
`ServerSeed` holds `-0Y!`, which is not its value at creation, and `BlindedServerSeed`,
still the digest of `KEY!`, is not the digest of what `ServerSeed` holds. `ClientSeed`
holds `seed` throughout. -/
theorem C13_server_seed_overwritten_on_shared_array :
    (Mem.NewGame goStd (sharedBuf.slice 0 4) (sharedBuf.slice 4 8) zeroSource sharedHeap).1 =
        (some sharedGame, none) ∧
      (sharedGame.view sharedStart).ClientSeed = .mk (asciiBytes "seed") ∧
      (sharedGame.view sharedStart).ServerSeed = .mk (asciiBytes "KEY!") ∧
      (sharedGame.view sharedStart).BlindedServerSeed =
        .mk (goStd.sha256 (sharedGame.view sharedStart).ServerSeed.bytes).val ∧
      (sharedGame.view (Mem.CalculateHMAC goStd sharedGame sharedStart).2).ClientSeed =
        .mk (asciiBytes "seed") ∧
      (sharedGame.view (Mem.CalculateHMAC goStd sharedGame sharedStart).2).ServerSeed =
        .mk (asciiBytes "-0Y!") ∧
      (sharedGame.view (Mem.CalculateHMAC goStd sharedGame sharedStart).2).BlindedServerSeed =
        (sharedGame.view sharedStart).BlindedServerSeed ∧
      (sharedGame.view (Mem.CalculateHMAC goStd sharedGame sharedStart).2).BlindedServerSeed ≠
        .mk (goStd.sha256
          (sharedGame.view (Mem.CalculateHMAC goStd sharedGame sharedStart).2).ServerSeed.bytes).val ∧
      (sharedGame.view (Mem.Calculate goStd sharedGame sharedStart).2).ServerSeed =
        .mk (asciiBytes "-0Y!") ∧
      ((Mem.Roll goStd sharedGame sharedStart).2.1.view
          (Mem.Roll goStd sharedGame sharedStart).2.2).ServerSeed = .mk (asciiBytes "-0Y!") := by
  decide!

set_option maxRecDepth 100000 in
/-- C14 on `buf := make([]byte, 12); copy(buf, "seedKEY!tail")` and the game of
`NewGame(buf[0:4], buf[4:8])`: the first `Calculate` is keyed with `KEY!` and returns 92.59;
building its message writes `-0` behind the client seed, over the first two bytes of the
server seed; the second `Calculate` on the same game, at the same nonce, is keyed with
`-0Y!` and returns 92.51. The fields of the game and the bytes of `ClientSeed` are the same
throughout. -/
theorem C14_repeated_calculate_on_shared_array :
    (Mem.NewGame goStd (sharedBuf.slice 0 4) (sharedBuf.slice 4 8) zeroSource sharedHeap).1 =
        (some sharedGame, none) ∧
      sharedGame.view sharedStart =
        ⟨.mk (asciiBytes "seed"), .mk (asciiBytes "KEY!"),
          .mk (goStd.sha256 (asciiBytes "KEY!")).val, 0⟩ ∧
      (Mem.Calculate goStd sharedGame sharedStart).1 = (Float64.const 9259 100, none) ∧
      (Mem.Calculate goStd sharedGame (Mem.Calculate goStd sharedGame sharedStart).2).1 =
        (Float64.const 9251 100, none) ∧
      Float64.eq (Float64.const 9259 100) (Float64.const 9251 100) = false ∧
      (Mem.Calculate goStd sharedGame sharedStart).2.take 12 = asciiBytes "seed-0Y!tail" ∧
      sharedGame.view (Mem.Calculate goStd sharedGame sharedStart).2 =
        ⟨.mk (asciiBytes "seed"), .mk (asciiBytes "-0Y!"),
          .mk (goStd.sha256 (asciiBytes "KEY!")).val, 0⟩ := by
  decide!

end Dice
